import Mathlib

/-!
Metadata synchronisation engine: store adapter and AWS collector.

A shallow embedding of `metadata/pkg/db/drivers/mongo/mongo.go` and
`metadata/pkg/drivers/aws/aws.go`, followed by the properties established
about them.

Conventions of the embedding.

* A Go `error` is identified with its message (`err.Error()`); `nil` is `none`.
* A Go pointer field of an SDK response is an `Option`; dereferencing `none`
  is a runtime fault (`Fault.nilDereference`), which ends the process.
  Assigning to an entry of a nil map is a runtime fault as well
  (`Fault.nilMapAssignment`); reading a nil map finds no key.
* A Go `map[string]T` is an association list whose keys are pairwise
  distinct; `mapIndex` is `m[k]` with the "comma ok" result and `mapAssign`
  is `m[k] = v`.
* `int64` arithmetic is arithmetic on `Int` followed by `wrap64`.
* The provider (S3) and the document store (MongoDB) are external: the
  provider is a record of response functions, the store is a list of
  documents with the operations this code uses.
* The goroutines of `BucketList` share the bucket array only, and each one
  writes its own bucket; a run of `BucketList` is given by the order in
  which its tasks run, each task to completion, and the barrier `wg.Wait()`
  by the fact that the function returns after the last task.
-/

namespace Strato

/-! ## Go values -/

/-- A Go error value, identified with its message. -/
abbrev Err := String

/-- A runtime fault (Go run-time error) that ends the process. -/
inductive Fault where
  | nilDereference
  | indexOutOfRange
  | nilMapAssignment
deriving DecidableEq, Repr

/-- A Go map with string keys, as an association list. -/
abbrev GoMap (β : Type) := List (String × β)

/-- The read `v, ok := m[k]`: `none` when the key is absent. -/
def mapIndex {β : Type} : GoMap β → String → Option β
  | [], _ => none
  | (k', v) :: rest, k => if k' = k then some v else mapIndex rest k

/-- The assignment `m[k] = v`: overwrites the entry of `k`, or adds one. -/
def mapAssign {β : Type} : GoMap β → String → β → GoMap β
  | [], k, v => [(k, v)]
  | (k', v') :: rest, k, v =>
    if k' = k then (k, v) :: rest else (k', v') :: mapAssign rest k v

/-- The test `strings.Contains(s, sub)` on character lists. -/
def containsChars : List Char → List Char → Bool
  | [], sub => sub.isEmpty
  | c :: cs, sub => sub.isPrefixOf (c :: cs) || containsChars cs sub

/-- The test `strings.Contains(s, sub)`. -/
def stringsContains (s sub : String) : Bool := containsChars s.data sub.data

/-- Reduction of an integer to the range of `int64` (two's complement). -/
def wrap64 (x : Int) : Int :=
  (x + 9223372036854775808) % 18446744073709551616 - 9223372036854775808

/-- The dereference `*p` of a pointer. -/
def deref {α : Type} : Option α → Except Fault α
  | some a => .ok a
  | none => .error Fault.nilDereference

/-- A point in time (`time.Time`); the zero value is `0`. -/
abbrev Time := Int

/-! ## Data model (`metadata/pkg/model`) -/

/-- Modelled from the spec: the Object Record of the data model, the type
`model.MetaObject` declared in `metadata/pkg/model`, under the field names
`aws.go` assigns. -/
structure MetaObject where
  ObjectName : String := ""
  LastModifiedDate : Time := 0
  Size : Int := 0
  StorageClass : String := ""
  ServerSideEncryption : String := ""
  VersionId : String := ""
  ObjectType : String := ""
  ExpiresDate : Time := 0
  ReplicationStatus : String := ""
deriving DecidableEq, Repr

/-- Modelled from the spec: the Bucket Snapshot of the data model, the type
`model.MetaBucket` declared in `metadata/pkg/model`, under the field names
`aws.go` assigns.  `BucketTags = none` is the nil map. -/
structure MetaBucket where
  CreationDate : Time := 0
  Name : String := ""
  Region : String := ""
  BucketTags : Option (GoMap String) := none
  NumberOfObjects : Int := 0
  TotalSize : Int := 0
  Objects : List MetaObject := []
deriving DecidableEq, Repr

/-- Modelled from the spec: the Backend Aggregate of the data model, the type
`model.MetaBackend` declared in `metadata/pkg/model`, under the field names
`aws.go` assigns.  A slot of `Buckets` is a pointer: `none` is a slot no
task has written. -/
structure MetaBackend where
  Id : String := ""
  BackendName : String := ""
  Type_ : String := ""
  Region : String := ""
  Buckets : List (Option MetaBucket) := []
deriving DecidableEq, Repr

/-! ## Store adapter (`mongo.go`) -/

/-- Identity metadata of a call, `metadata.Metadata`. -/
abbrev Metadata := GoMap String

/-- A call context as `metadata.FromContext` sees it: `none` when the
context carries no identity metadata. -/
abbrev Context := Option Metadata

/-- A filter document, `bson.M`, with string values; `none` is the nil map. -/
abbrev M := Option (GoMap String)

/-- The read `m[k]` of a filter document; a nil map has no key. -/
def M.index (m : M) (k : String) : Option String :=
  match m with
  | none => none
  | some entries => mapIndex entries k

/-- Modelled from the spec: the constant `common.CTX_VAL_TRUE` declared in
`api/pkg/common`, the value of the admin attribute that marks a privileged
call. -/
def CTX_VAL_TRUE : String := "true"

/-- The two context keys `common.CTX_KEY_IS_ADMIN` and
`common.CTX_KEY_TENANT_ID` of `api/pkg/common`, taken as parameters. -/
structure Common where
  CTX_KEY_IS_ADMIN : String
  CTX_KEY_TENANT_ID : String

/-- The function `UpdateContextFilter(ctx, m)`: the filter after the call and the error
returned, or the runtime fault that ends it.  `md[k]` on an absent key reads
the empty string; the assignment `m["tenantid"] = tenantId` faults on a nil
`m`. -/
def UpdateContextFilter (c : Common) (ctx : Context) (m : M) :
    Except Fault (M × Option Err) :=
  match ctx with
  | none => .ok (m, some "get context failed")
  | some md =>
    let isAdmin := (mapIndex md c.CTX_KEY_IS_ADMIN).getD ""
    if isAdmin ≠ CTX_VAL_TRUE then
      match mapIndex md c.CTX_KEY_TENANT_ID with
      | none => .ok (m, some "get tenantid failed")
      | some tenantId =>
        match m with
        | none => .error Fault.nilMapAssignment
        | some entries => .ok (some (mapAssign entries "tenantid" tenantId), none)
    else
      .ok (m, none)

/-- A stored document of the collection: the aggregate, and the document's
`tenantid` field when it has one. -/
structure Document where
  tenantid : Option String
  body : MetaBackend
deriving DecidableEq, Repr

/-- An operation sent to the document store. -/
inductive StoreOp where
  | replaceOne (id : String)
  | aggregate
  | cursorAll
deriving DecidableEq, Repr

/-- A stage of an aggregation pipeline (`bson.D`): the stages of the model
are `$match` on top-level string fields (the filter a non-nil document),
`$limit` and `$skip`. -/
inductive Stage where
  | matchStage (filter : GoMap String)
  | limit (n : Nat)
  | skip (n : Nat)
deriving DecidableEq, Repr

/-- The document store behind `adapter.session`: the documents of the
metadata collection, the error the connection answers every operation with
(when it is down), and the record of the operations it has received.
The read path has two more sources of error: `pipelineErr` is the error the
server answers a pipeline with when it rejects it, and `allErr` is the error
`cur.All` ends with on a result it cannot read or decode (`none`: no
error). -/
structure Mongo where
  docs : List Document
  down : Option Err
  ops : List StoreOp
  pipelineErr : List Stage → Option Err := fun _ => none
  allErr : List Document → Option Err := fun _ => none

/-- Replacement of the first document whose `_id` is `id`, or insertion. -/
def replaceUpsert (id : String) (d : Document) : List Document → List Document
  | [] => [d]
  | x :: rest => if x.body.Id = id then d :: rest else x :: replaceUpsert id d rest

/-- The call `Collection.ReplaceOne(ctx, {_id: id}, doc, upsert)`: the whole
document is replaced, whatever fields the previous one had. -/
def Mongo.ReplaceOne (db : Mongo) (id : String) (doc : MetaBackend) : Mongo × Option Err :=
  match db.down with
  | some e => ({ db with ops := db.ops ++ [StoreOp.replaceOne id] }, some e)
  | none =>
    ({ db with docs := replaceUpsert id ⟨none, doc⟩ db.docs,
               ops := db.ops ++ [StoreOp.replaceOne id] }, none)

/-- The method `CreateMetadata(ctx, metaBackend)`: the store after the call
and the error returned. -/
def CreateMetadata (db : Mongo) (metaBackend : MetaBackend) : Mongo × Option Err :=
  db.ReplaceOne metaBackend.Id metaBackend

/-- The top-level string fields of a stored document. -/
def Document.field (d : Document) (k : String) : Option String :=
  if k = "tenantid" then d.tenantid
  else if k = "_id" then some d.body.Id
  else if k = "backendName" then some d.body.BackendName
  else if k = "type" then some d.body.Type_
  else if k = "region" then some d.body.Region
  else none

/-- Whether a document satisfies every equality of a `$match` filter. -/
def matchesFilter (filter : GoMap String) (d : Document) : Bool :=
  filter.all (fun kv => decide (d.field kv.1 = some kv.2))

/-- One stage applied to the documents flowing through the pipeline. -/
def runStage (ds : List Document) : Stage → List Document
  | Stage.matchStage filter => ds.filter (matchesFilter filter)
  | Stage.limit n => ds.take n
  | Stage.skip n => ds.drop n

/-- The call `Collection.Aggregate(ctx, pipeline)`: the store after the call
and the cursor (the documents the pipeline selects) or the error, which is
that of the connection when it is down and else that of the server when it
rejects the pipeline. -/
def Mongo.Aggregate (db : Mongo) (pipeline : List Stage) :
    Mongo × Except Err (List Document) :=
  let db' := { db with ops := db.ops ++ [StoreOp.aggregate] }
  match db.down with
  | some e => (db', .error e)
  | none =>
    match db.pipelineErr pipeline with
    | some e => (db', .error e)
    | none => (db', .ok (pipeline.foldl runStage db.docs))

/-- The call `cur.All(ctx, &results)` on the cursor of an aggregation: the
store after the call and the decoded aggregates, or the error of a result
that cannot be read or decoded. -/
def Mongo.All (db : Mongo) (cur : List Document) :
    Mongo × Except Err (List MetaBackend) :=
  let db' := { db with ops := db.ops ++ [StoreOp.cursorAll] }
  match db.allErr cur with
  | some e => (db', .error e)
  | none => (db', .ok (cur.map Document.body))

/-- The method `ListMetadata(ctx, query)`: the store after the call, the aggregates
returned (empty for Go's nil) and the error, which is that of `Aggregate`
or else that of `cur.All`. -/
def ListMetadata (db : Mongo) (_ctx : Context) (query : List Stage) :
    Mongo × List MetaBackend × Option Err :=
  let pipeline := query
  match db.Aggregate pipeline with
  | (db', .error err) => (db', [], some err)
  | (db', .ok cur) =>
    match db'.All cur with
    | (db'', .error err) => (db'', [], some err)
    | (db'', .ok results) => (db'', results, none)

/-! ## Provider client (`aws-sdk-go`, external) -/

/-- An entry of a bucket listing, `s3.Bucket`. -/
structure S3Bucket where
  Name : Option String
  CreationDate : Option Time
deriving DecidableEq, Repr

/-- An entry of an object listing, `s3.Object`. -/
structure S3Object where
  Key : Option String
  LastModified : Option Time
  Size : Option Int
  StorageClass : Option String
deriving DecidableEq, Repr

/-- The response of a head request, `s3.HeadObjectOutput`. -/
structure HeadObjectOutput where
  ServerSideEncryption : Option String
  VersionId : Option String
  ContentType : Option String
  Expires : Option String
  ReplicationStatus : Option String
deriving DecidableEq, Repr

/-- A bucket tag, `s3.Tag`. -/
structure Tag where
  Key : Option String
  Value : Option String
deriving DecidableEq, Repr

/-- A session, `session.Session`, together with the provider it reaches.
The first argument of a call is the region of the client that issues it
(`none` when the client's configuration carries no region).
`GetBucketLocation` answers with the `LocationConstraint` of its output;
`parseRFC3339` is `time.Parse(time.RFC3339, _)`, `none` on a parse error. -/
structure Session where
  Config_Region : Option String
  ListBuckets : Option String → Except Err (List S3Bucket)
  GetBucketLocation : Option String → Option String → Except Err (Option String)
  GetBucketTagging : Option String → Option String → Except Err (List Tag)
  ListObjectsV2 : Option String → String → Except Err (List S3Object)
  HeadObject : Option String → String → Option String → Except Err HeadObjectOutput
  parseRFC3339 : String → Option Time

/-- Modelled from the spec: the backend configuration, the type
`backendpb.BackendDetail` declared in `backend/proto`, with the identity
fields `SyncMetadata` copies. -/
structure BackendDetail where
  Id : String
  Name : String
  Type_ : String
  Region : String
deriving DecidableEq, Repr

/-- The adapter of one backend, `AwsAdapter`. -/
structure AwsAdapter where
  Backend : BackendDetail
  Session : Session

/-! ## AWS collector (`aws.go`) -/

/-- The part of the loop body of `ObjectList` after a successful head
request: the fields of `obj` taken from `meta`. -/
def fillFromHead (sess : Session) (obj : MetaObject) (meta : HeadObjectOutput) :
    Except Fault MetaObject := do
  let obj := match meta.ServerSideEncryption with
    | some v => { obj with ServerSideEncryption := v }
    | none => obj
  let obj := match meta.VersionId with
    | some v => { obj with VersionId := v }
    | none => obj
  let contentType ← deref meta.ContentType
  let obj := { obj with ObjectType := contentType }
  let obj := match meta.Expires with
    | some s =>
      match sess.parseRFC3339 s with
      | none => obj
      | some expiresTime => { obj with ExpiresDate := expiresTime }
    | none => obj
  let obj := match meta.ReplicationStatus with
    | some v => { obj with ReplicationStatus := v }
    | none => obj
  return obj

/-- The loop of `ObjectList` over `output.Contents`, from the running total
`totSize` and the objects already filled in.  The result is `none` when a
head request fails (the function returns at once), and otherwise the total
and the filled array. -/
def objectLoop (sess : Session) (region : Option String) (bucketName : String) :
    List S3Object → Int → List MetaObject → Except Fault (Option (Int × List MetaObject))
  | [], totSize, objectArray => .ok (some (totSize, objectArray))
  | object :: rest, totSize, objectArray => do
    let lastModified ← deref object.LastModified
    let key ← deref object.Key
    let size ← deref object.Size
    let totSize := wrap64 (totSize + size)
    let storageClass ← deref object.StorageClass
    let obj : MetaObject :=
      { LastModifiedDate := lastModified, ObjectName := key, Size := size,
        StorageClass := storageClass }
    match sess.HeadObject region bucketName object.Key with
    | .error _ => .ok none
    | .ok meta =>
      let obj ← fillFromHead sess obj meta
      objectLoop sess region bucketName rest totSize (objectArray ++ [obj])

/-- The function `ObjectList(sess, bucket)`: the bucket after the call. -/
def ObjectList (sess : Session) (bucket : MetaBucket) : Except Fault MetaBucket :=
  let svc := some bucket.Region
  match sess.ListObjectsV2 svc bucket.Name with
  | .error _ => .ok bucket
  | .ok contents =>
    let numObjects := contents.length
    match objectLoop sess svc bucket.Name contents 0 [] with
    | .error f => .error f
    | .ok none => .ok bucket
    | .ok (some (totSize, objectArray)) =>
      .ok { bucket with NumberOfObjects := numObjects, TotalSize := totSize,
                        Objects := objectArray }

/-- The loop of `GetBucketMeta` over `tags.TagSet`. -/
def tagLoop : List Tag → GoMap String → Except Fault (GoMap String)
  | [], tagset => .ok tagset
  | tag :: rest, tagset => do
    let k ← deref tag.Key
    let v ← deref tag.Value
    tagLoop rest (mapAssign tagset k v)

/-- The task `GetBucketMeta(buckIdx, bucket, sess, bucketArray, wg)`: the array after
the task, and the error it returns.  The slot holds a pointer to `buck`, so
it shows the fields as the task leaves them.  On an error of
`GetBucketTagging` the output the SDK hands back is empty (`TagSet` nil). -/
def GetBucketMeta (buckIdx : Nat) (bucket : S3Bucket) (sess : Session)
    (bucketArray : List (Option MetaBucket)) :
    Except Fault (List (Option MetaBucket) × Option Err) := do
  if bucketArray.length ≤ buckIdx then throw Fault.indexOutOfRange
  let creationDate ← deref bucket.CreationDate
  let name ← deref bucket.Name
  let buck : MetaBucket := { CreationDate := creationDate, Name := name }
  match sess.GetBucketLocation sess.Config_Region bucket.Name with
  | .error err => return (bucketArray.set buckIdx (some buck), some err)
  | .ok loc =>
    let region ← deref loc
    let buck := { buck with Region := region }
    let sessRegion ← deref sess.Config_Region
    let svc := if sessRegion ≠ region then some region else sess.Config_Region
    let (tagSet, err) : List Tag × Option Err :=
      match sess.GetBucketTagging svc bucket.Name with
      | .ok ts => (ts, none)
      | .error e => ([], some e)
    let untagged : Bool :=
      match err with
      | some e => !stringsContains e "NoSuchTagSet"
      | none => false
    let buck ←
      if untagged then pure buck
      else do
        let tagset ← tagLoop tagSet []
        pure { buck with BucketTags := some tagset }
    let buck ← ObjectList sess buck
    return (bucketArray.set buckIdx (some buck), err)

/-- The result of `BucketList`, with the number of tasks it launched. -/
structure BucketListResult where
  bucketArray : List (Option MetaBucket)
  err : Option Err
  launched : Nat
deriving DecidableEq, Repr

/-- The tasks of `BucketList` run to completion in the order `order` (task
`i` is `GetBucketMeta i` on the `i`-th listed bucket); the value a task
returns is dropped, as `go` does. -/
def runTasks (sess : Session) (buckets : List S3Bucket) :
    List Nat → List (Option MetaBucket) → Except Fault (List (Option MetaBucket))
  | [], bucketArray => .ok bucketArray
  | i :: order, bucketArray =>
    match buckets[i]? with
    | none => runTasks sess buckets order bucketArray
    | some bucket =>
      match GetBucketMeta i bucket sess bucketArray with
      | .error f => .error f
      | .ok (bucketArray, _) => runTasks sess buckets order bucketArray

/-- The function `BucketList(sess)` when its tasks run and complete in the order `order`,
a permutation of the indices of the listing. -/
def BucketList (sess : Session) (order : List Nat) : Except Fault BucketListResult :=
  match sess.ListBuckets sess.Config_Region with
  | .error err => .ok { bucketArray := [], err := some err, launched := 0 }
  | .ok buckets =>
    let numBuckets := buckets.length
    let bucketArray := List.replicate numBuckets none
    match runTasks sess buckets order bucketArray with
    | .error f => .error f
    | .ok bucketArray =>
      .ok { bucketArray := bucketArray, err := none, launched := numBuckets }

/-- The result of `SyncMetadata`: the error returned, the store after the
call and the number of per-bucket tasks launched. -/
structure SyncResult where
  err : Option Err
  db : Mongo
  launched : Nat

/-- The method `SyncMetadata(ctx, in)` against the store `db`. -/
def SyncMetadata (ad : AwsAdapter) (order : List Nat) (db : Mongo) :
    Except Fault SyncResult :=
  match BucketList ad.Session order with
  | .error f => .error f
  | .ok r =>
    match r.err with
    | some err => .ok { err := some err, db := db, launched := r.launched }
    | none =>
      let metaBackend : MetaBackend :=
        { Id := ad.Backend.Id, BackendName := ad.Backend.Name,
          Type_ := ad.Backend.Type_, Region := ad.Backend.Region,
          Buckets := r.bucketArray }
      let (db, err) := CreateMetadata db metaBackend
      .ok { err := err, db := db, launched := r.launched }

/-! ## A concrete backend: buckets b1 (sizes 100, 150, 50) and b2 (empty) -/

/-- The head response of the example objects. -/
def exHead : HeadObjectOutput :=
  { ServerSideEncryption := some "AES256", VersionId := none,
    ContentType := some "text/plain", Expires := none, ReplicationStatus := none }

/-- The listing of bucket b1. -/
def exObjects : List S3Object :=
  [ { Key := some "k1", LastModified := some 1, Size := some 100, StorageClass := some "STANDARD" },
    { Key := some "k2", LastModified := some 2, Size := some 150, StorageClass := some "STANDARD" },
    { Key := some "k3", LastModified := some 3, Size := some 50, StorageClass := some "STANDARD" } ]

/-- A session of region eu-west-1 on a backend with buckets b1 and b2; b1
has no tag set. -/
def exSession : Session :=
  { Config_Region := some "eu-west-1"
    ListBuckets := fun _ =>
      .ok [ { Name := some "b1", CreationDate := some 10 },
            { Name := some "b2", CreationDate := some 20 } ]
    GetBucketLocation := fun _ _ => .ok (some "eu-west-1")
    GetBucketTagging := fun _ b =>
      if b = some "b1" then .error "NoSuchTagSet: The TagSet does not exist"
      else .ok [ { Key := some "env", Value := some "prod" } ]
    ListObjectsV2 := fun _ b => if b = "b1" then .ok exObjects else .ok []
    HeadObject := fun _ _ _ => .ok exHead
    parseRFC3339 := fun _ => none }

/-! ## Notions used to state the properties -/

/-- The tenant identity a context yields, if any. -/
def contextTenant (c : Common) (ctx : Context) : Option String :=
  ctx.bind (fun md => mapIndex md c.CTX_KEY_TENANT_ID)

/-- Whether a context is privileged: its admin attribute is the 'true' value. -/
def contextIsAdmin (c : Common) (ctx : Context) : Bool :=
  match ctx with
  | none => false
  | some md => decide (mapIndex md c.CTX_KEY_IS_ADMIN = some "true")

/-- An aggregate returned from the documents `docs` belongs to tenant `T`:
it is the body of a stored document whose `tenantid` is `T`. -/
def belongsTo (docs : List Document) (T : String) (r : MetaBackend) : Prop :=
  ∃ d ∈ docs, d.body = r ∧ d.tenantid = some T

/-- Reference definition of the tenant context filter, after the wording of
its specification and on abstract maps (a map is its lookup function): the
map after the call, and whether the call is an error. -/
def UpdateContextFilterRef (c : Common) (ctx : Context) (m : String → Option String) :
    (String → Option String) × Bool :=
  match ctx with
  | none => (m, true)
  | some _ =>
    if contextIsAdmin c ctx then (m, false)
    else
      match contextTenant c ctx with
      | some T => (fun k => if k = "tenantid" then some T else m k, false)
      | none => (m, true)

/-- The first stored document whose `_id` is `id`. -/
def findDoc (id : String) : List Document → Option Document
  | [] => none
  | x :: rest => if x.body.Id = id then some x else findDoc id rest

/-- Two stored documents of tenants A and B. -/
def exDocs : List Document :=
  [ ⟨some "A", { Id := "1", BackendName := "backend-a" }⟩,
    ⟨some "B", { Id := "2", BackendName := "backend-b" }⟩ ]

/-- A reachable store holding `exDocs`. -/
def exMongo : Mongo := { docs := exDocs, down := none, ops := [] }

/-- A reachable store with no document. -/
def exMongoEmpty : Mongo := { docs := [], down := none, ops := [] }

/-- A reachable store that holds an older document of tenant A under the Id
of the example backend. -/
def exMongoOld : Mongo :=
  { docs := [⟨some "A", { Id := "backend-1", BackendName := "old" }⟩], down := none, ops := [] }

/-- A reachable store holding `exDocs` whose results `cur.All` cannot decode. -/
def exMongoUndecodable : Mongo :=
  { docs := exDocs, down := none, ops := [], allErr := fun _ => some "cannot decode" }

/-- Context keys for the examples. -/
def exCommon : Common := { CTX_KEY_IS_ADMIN := "Is_admin", CTX_KEY_TENANT_ID := "Tenantid" }

/-- The exact sum of `Size` over a sequence of object records. -/
def sumSizes (objs : List MetaObject) : Int := (objs.map (fun o => o.Size)).sum

/-- An integer fits in a signed 64-bit integer. -/
def fitsInt64 (x : Int) : Prop :=
  -9223372036854775808 ≤ x ∧ x ≤ 9223372036854775807

/-- The bucket snapshot invariant: the count is the length of `Objects` and
the total size is the exact sum of their sizes, when that sum fits in a
signed 64-bit integer. -/
def SnapshotInvariant (b : MetaBucket) : Prop :=
  b.NumberOfObjects = b.Objects.length ∧
  (fitsInt64 (sumSizes b.Objects) → b.TotalSize = sumSizes b.Objects)

instance (x : Int) : Decidable (fitsInt64 x) := by
  unfold fitsInt64
  infer_instance

instance (b : MetaBucket) : Decidable (SnapshotInvariant b) := by
  unfold SnapshotInvariant
  infer_instance

instance (docs : List Document) (T : String) (r : MetaBackend) :
    Decidable (belongsTo docs T r) := by
  unfold belongsTo
  infer_instance

/-- What a per-bucket task leaves in its slot and the error it returns: the
body of `GetBucketMeta` without the shared array. -/
def bucketOf (bucket : S3Bucket) (sess : Session) : Except Fault (MetaBucket × Option Err) := do
  let creationDate ← deref bucket.CreationDate
  let name ← deref bucket.Name
  let buck : MetaBucket := { CreationDate := creationDate, Name := name }
  match sess.GetBucketLocation sess.Config_Region bucket.Name with
  | .error err => return (buck, some err)
  | .ok loc =>
    let region ← deref loc
    let buck := { buck with Region := region }
    let sessRegion ← deref sess.Config_Region
    let svc := if sessRegion ≠ region then some region else sess.Config_Region
    let (tagSet, err) : List Tag × Option Err :=
      match sess.GetBucketTagging svc bucket.Name with
      | .ok ts => (ts, none)
      | .error e => ([], some e)
    let untagged : Bool :=
      match err with
      | some e => !stringsContains e "NoSuchTagSet"
      | none => false
    let buck ←
      if untagged then pure buck
      else do
        let tagset ← tagLoop tagSet []
        pure { buck with BucketTags := some tagset }
    let buck ← ObjectList sess buck
    return (buck, err)

/-- The slot a task leaves for a listed bucket (`none` if the task faults). -/
def slotOf (sess : Session) (bucket : S3Bucket) : Option MetaBucket :=
  match bucketOf bucket sess with
  | .ok p => some p.1
  | .error _ => none

/-- The writes of the tasks run in the order `order`, as array updates. -/
def writeSlots (sess : Session) (buckets : List S3Bucket) :
    List Nat → List (Option MetaBucket) → List (Option MetaBucket)
  | [], arr => arr
  | i :: order, arr =>
    match buckets[i]? with
    | none => writeSlots sess buckets order arr
    | some bucket => writeSlots sess buckets order (arr.set i (slotOf sess bucket))

/-- The aggregate `SyncMetadata` builds from the configuration of a backend
and a bucket array. -/
def aggregateOf (backend : BackendDetail) (buckets : List (Option MetaBucket)) : MetaBackend :=
  { Id := backend.Id, BackendName := backend.Name, Type_ := backend.Type_,
    Region := backend.Region, Buckets := buckets }

/-- The example session with every object listing rejected. -/
def exSessionNoListing : Session :=
  { exSession with ListObjectsV2 := fun _ _ => .error "AccessDenied" }

/-- The example session with the head request of object k2 rejected. -/
def exSessionNoHead : Session :=
  { exSession with
    HeadObject := fun _ _ k => if k = some "k2" then .error "Forbidden" else .ok exHead }

/-- The example session with the bucket listing rejected. -/
def exSessionNoBuckets : Session :=
  { exSession with ListBuckets := fun _ => .error "InvalidAccessKeyId" }

/-- A session of region us-east-1 on a backend whose single bucket lies in
that region: the location lookup succeeds with no location constraint. -/
def exSessionDefaultRegion : Session :=
  { exSession with
    Config_Region := some "us-east-1"
    ListBuckets := fun _ => .ok [ { Name := some "b1", CreationDate := some 10 } ]
    GetBucketLocation := fun _ _ => .ok none }

/-- The example session with bucket b2 in the default region: its location
lookup succeeds with no location constraint, while b1 is as before. -/
def exSessionMixedRegions : Session :=
  { exSession with
    GetBucketLocation := fun _ b =>
      if b = some "b2" then .ok none else .ok (some "eu-west-1") }

/-- The configuration of the example backend. -/
def exBackend : BackendDetail :=
  { Id := "backend-1", Name := "aws-main", Type_ := "aws-s3", Region := "eu-west-1" }

/-- The bucket b1 of the example backend as `SyncMetadata` records it. -/
def exBucket1 : MetaBucket :=
  { CreationDate := 10, Name := "b1", Region := "eu-west-1", BucketTags := some [],
    NumberOfObjects := 3, TotalSize := 300,
    Objects :=
      [ { ObjectName := "k1", LastModifiedDate := 1, Size := 100, StorageClass := "STANDARD",
          ServerSideEncryption := "AES256", ObjectType := "text/plain" },
        { ObjectName := "k2", LastModifiedDate := 2, Size := 150, StorageClass := "STANDARD",
          ServerSideEncryption := "AES256", ObjectType := "text/plain" },
        { ObjectName := "k3", LastModifiedDate := 3, Size := 50, StorageClass := "STANDARD",
          ServerSideEncryption := "AES256", ObjectType := "text/plain" } ] }

/-- The bucket b2 of the example backend as `SyncMetadata` records it. -/
def exBucket2 : MetaBucket :=
  { CreationDate := 20, Name := "b2", Region := "eu-west-1",
    BucketTags := some [("env", "prod")] }

/-- Every per-bucket task of a listing completes: run on the fresh array, it
ends with a return and not with a runtime fault. -/
def TasksComplete (sess : Session) (buckets : List S3Bucket) : Prop :=
  ∀ i b, buckets[i]? = some b →
    ∃ p, GetBucketMeta i b sess (List.replicate buckets.length none) = .ok p

/-- An order in which the tasks of `BucketList` run and complete: a
permutation of the indices of the listing, when there is a listing. -/
def IsSchedule (sess : Session) (order : List Nat) : Prop :=
  ∀ buckets, sess.ListBuckets sess.Config_Region = .ok buckets →
    order.Perm (List.range buckets.length)

/-! ## Lemmas on maps -/

theorem mapIndex_mapAssign {β : Type} (m : GoMap β) (k : String) (v : β) (k' : String) :
    mapIndex (mapAssign m k v) k' = if k' = k then some v else mapIndex m k' := by
  induction m with
  | nil =>
    by_cases h : k' = k
    · simp [mapAssign, mapIndex, h]
    · have h' : ¬ k = k' := fun e => h e.symm
      simp [mapAssign, mapIndex, h, h']
  | cons hd tl ih =>
    obtain ⟨a, b⟩ := hd
    by_cases hak : a = k
    · by_cases h : k' = k
      · simp [mapAssign, mapIndex, hak, h]
      · have h' : ¬ k = k' := fun e => h e.symm
        simp [mapAssign, mapIndex, hak, h, h']
    · by_cases h : k' = k
      · subst h
        simp [mapAssign, mapIndex, hak, ih]
      · simp [mapAssign, mapIndex, hak, h, ih]

theorem mem_mapAssign {β : Type} (m : GoMap β) (k : String) (v : β) :
    (k, v) ∈ mapAssign m k v := by
  induction m with
  | nil => simp [mapAssign]
  | cons hd tl ih =>
    obtain ⟨a, b⟩ := hd
    by_cases hak : a = k
    · simp [mapAssign, hak]
    · simp [mapAssign, hak, ih]

theorem getD_eq_true_iff (o : Option String) :
    o.getD "" = CTX_VAL_TRUE ↔ o = some "true" := by
  cases o with
  | none => simp [CTX_VAL_TRUE]
  | some v => simp [CTX_VAL_TRUE]

/-! ## Lemmas on the pipeline -/

theorem mem_runStage {ds : List Document} {st : Stage} {d : Document}
    (h : d ∈ runStage ds st) : d ∈ ds := by
  cases st with
  | matchStage filter => exact (List.mem_filter.mp h).1
  | limit n => exact List.mem_of_mem_take h
  | skip n => exact List.mem_of_mem_drop h

theorem mem_foldl_runStage (pipeline : List Stage) :
    ∀ {ds : List Document} {d : Document}, d ∈ pipeline.foldl runStage ds → d ∈ ds := by
  induction pipeline with
  | nil => intro ds d h; exact h
  | cons st rest ih => intro ds d h; exact mem_runStage (ih h)

theorem tenant_of_matchesFilter {filter : GoMap String} {T : String} {d : Document}
    (hmem : ("tenantid", T) ∈ filter) (h : matchesFilter filter d = true) :
    d.tenantid = some T := by
  have := List.all_eq_true.mp h _ hmem
  simpa [Document.field] using this

theorem ListMetadata_results (db : Mongo) (ctx : Context) (query : List Stage)
    (r : MetaBackend) (hr : r ∈ (ListMetadata db ctx query).2.1) :
    ∃ d ∈ query.foldl runStage db.docs, d.body = r := by
  cases hdown : db.down with
  | some e => simp [ListMetadata, Mongo.Aggregate, hdown] at hr
  | none =>
    cases hp : db.pipelineErr query with
    | some e => simp [ListMetadata, Mongo.Aggregate, hdown, hp] at hr
    | none =>
      cases ha : db.allErr (List.foldl runStage db.docs query) with
      | some e => simp [ListMetadata, Mongo.Aggregate, Mongo.All, hdown, hp, ha] at hr
      | none =>
        simp only [ListMetadata, Mongo.Aggregate, Mongo.All, hdown, hp, ha, List.mem_map] at hr
        exact hr

/-! ## Lemmas on the object enumerator -/

theorem wrap64_of_fits {x : Int} (h : fitsInt64 x) : wrap64 x = x := by
  unfold wrap64
  unfold fitsInt64 at h
  omega

theorem wrap64_wrap64_add (a b : Int) : wrap64 (wrap64 a + b) = wrap64 (a + b) := by
  unfold wrap64
  omega

theorem wrap64_idem (a : Int) : wrap64 (wrap64 a) = wrap64 a := by
  unfold wrap64
  omega

theorem sumSizes_cons (o : MetaObject) (objs : List MetaObject) :
    sumSizes (o :: objs) = o.Size + sumSizes objs := by
  simp [sumSizes]

theorem fillFromHead_Size {sess : Session} {obj obj' : MetaObject} {meta : HeadObjectOutput}
    (h : fillFromHead sess obj meta = .ok obj') : obj'.Size = obj.Size := by
  obtain ⟨sse, vid, ct, exp, rs⟩ := meta
  cases ct with
  | none => simp [fillFromHead, deref, bind, Except.bind] at h
  | some c =>
    simp only [fillFromHead, deref, bind, Except.bind, pure, Except.pure] at h
    injection h with h
    subst h
    cases sse <;> cases vid <;> cases rs <;> cases exp <;> simp <;>
      (split <;> rfl)

theorem objectLoop_spec (sess : Session) (region : Option String) (bucketName : String) :
    ∀ (contents : List S3Object) (totSize : Int) (objectArray : List MetaObject)
      (tot' : Int) (objs' : List MetaObject),
      wrap64 totSize = totSize →
      objectLoop sess region bucketName contents totSize objectArray = .ok (some (tot', objs')) →
      ∃ added, objs' = objectArray ++ added ∧ added.length = contents.length ∧
        tot' = wrap64 (totSize + sumSizes added) := by
  intro contents
  induction contents with
  | nil =>
    intro totSize objectArray tot' objs' hw h
    simp only [objectLoop, Except.ok.injEq, Option.some.injEq, Prod.mk.injEq] at h
    refine ⟨[], ?_, rfl, ?_⟩
    · simp [h.2]
    · simp [sumSizes, ← h.1, hw]
  | cons object rest ih =>
    intro totSize objectArray tot' objs' hw h
    obtain ⟨key, lastModified, size, storageClass⟩ := object
    cases lastModified with
    | none => simp [objectLoop, deref, bind, Except.bind] at h
    | some lm =>
    cases key with
    | none => simp [objectLoop, deref, bind, Except.bind] at h
    | some k =>
    cases size with
    | none => simp [objectLoop, deref, bind, Except.bind] at h
    | some sz =>
    cases storageClass with
    | none => simp [objectLoop, deref, bind, Except.bind] at h
    | some sc =>
    simp only [objectLoop, deref, bind, Except.bind] at h
    cases hh : sess.HeadObject region bucketName (some k) with
    | error e => simp [hh] at h
    | ok meta =>
      simp only [hh] at h
      cases hf : fillFromHead sess
          { ObjectName := k, LastModifiedDate := lm, Size := sz, StorageClass := sc } meta with
      | error f => simp [hf] at h
      | ok obj =>
        simp only [hf] at h
        obtain ⟨added, h1, h2, h3⟩ := ih _ _ _ _ (wrap64_idem _) h
        have hsz : obj.Size = sz := fillFromHead_Size hf
        refine ⟨obj :: added, ?_, ?_, ?_⟩
        · simp [h1]
        · simp [h2]
        · rw [h3, wrap64_wrap64_add, sumSizes_cons, hsz, add_assoc]

theorem ObjectList_cases {sess : Session} {b b' : MetaBucket}
    (h : ObjectList sess b = .ok b') :
    b' = b ∨ ∃ objs, b' = { b with NumberOfObjects := objs.length,
                                   TotalSize := wrap64 (sumSizes objs), Objects := objs } := by
  unfold ObjectList at h
  cases hl : sess.ListObjectsV2 (some b.Region) b.Name with
  | error e =>
    simp only [hl, Except.ok.injEq] at h
    exact Or.inl h.symm
  | ok contents =>
    simp only [hl] at h
    cases ho : objectLoop sess (some b.Region) b.Name contents 0 [] with
    | error f => simp [ho] at h
    | ok res =>
      cases res with
      | none =>
        simp only [ho, Except.ok.injEq] at h
        exact Or.inl h.symm
      | some p =>
        obtain ⟨tot, objs⟩ := p
        simp only [ho, Except.ok.injEq] at h
        obtain ⟨added, h1, h2, h3⟩ := objectLoop_spec sess _ _ contents 0 [] tot objs rfl ho
        right
        refine ⟨objs, ?_⟩
        simp only [List.nil_append] at h1
        subst h1
        rw [← h, h3, h2]
        simp

theorem ObjectList_frame {sess : Session} {b b' : MetaBucket}
    (h : ObjectList sess b = .ok b') :
    b'.Name = b.Name ∧ b'.CreationDate = b.CreationDate ∧ b'.Region = b.Region ∧
      b'.BucketTags = b.BucketTags := by
  rcases ObjectList_cases h with rfl | ⟨objs, rfl⟩
  · exact ⟨rfl, rfl, rfl, rfl⟩
  · exact ⟨rfl, rfl, rfl, rfl⟩

theorem ObjectList_preserves_invariant {sess : Session} {b b' : MetaBucket}
    (hb : SnapshotInvariant b) (h : ObjectList sess b = .ok b') : SnapshotInvariant b' := by
  rcases ObjectList_cases h with rfl | ⟨objs, rfl⟩
  · exact hb
  · exact ⟨rfl, fun hfit => wrap64_of_fits hfit⟩

/-! ## Lemmas on the bucket collector -/

theorem GetBucketMeta_eq (i : Nat) (b : S3Bucket) (sess : Session)
    (arr : List (Option MetaBucket)) :
    GetBucketMeta i b sess arr =
      if arr.length ≤ i then .error Fault.indexOutOfRange
      else
        match bucketOf b sess with
        | .error f => .error f
        | .ok p => .ok (arr.set i (some p.1), p.2) := by
  by_cases hi : arr.length ≤ i
  · simp [GetBucketMeta, hi, bind, Except.bind, throw, throwThe, MonadExceptOf.throw]
  · obtain ⟨name, date⟩ := b
    cases date with
    | none => simp [GetBucketMeta, bucketOf, hi, deref, bind, Except.bind, pure, Except.pure]
    | some d =>
    cases name with
    | none => simp [GetBucketMeta, bucketOf, hi, deref, bind, Except.bind, pure, Except.pure]
    | some n =>
    cases hloc : sess.GetBucketLocation sess.Config_Region (some n) with
    | error e =>
      simp [GetBucketMeta, bucketOf, hi, deref, bind, Except.bind, pure, Except.pure, hloc]
    | ok loc =>
    cases loc with
    | none =>
      simp [GetBucketMeta, bucketOf, hi, deref, bind, Except.bind, pure, Except.pure, hloc]
    | some region =>
    cases hcfg : sess.Config_Region with
    | none =>
      rw [hcfg] at hloc
      simp [GetBucketMeta, bucketOf, hi, deref, bind, Except.bind, pure, Except.pure, hloc, hcfg]
    | some r0 =>
      rw [hcfg] at hloc
      simp only [GetBucketMeta, bucketOf, hi, deref, bind, Except.bind, pure, Except.pure, hloc,
        hcfg, if_false]
      generalize sess.GetBucketTagging (if r0 ≠ region then some region else some r0) (some n) = tg
      cases tg with
      | error e =>
        dsimp only
        split_ifs
        · cases ObjectList sess { CreationDate := d, Name := n, Region := region } <;> rfl
        · cases tagLoop [] [] with
          | error f => rfl
          | ok ts =>
            dsimp only
            cases ObjectList sess
              { CreationDate := d, Name := n, Region := region, BucketTags := some ts } <;> rfl
      | ok ts =>
        dsimp only
        rw [if_neg (by simp)]
        cases tagLoop ts [] with
        | error f => rfl
        | ok ts =>
          dsimp only
          cases ObjectList sess
            { CreationDate := d, Name := n, Region := region, BucketTags := some ts } <;> rfl

theorem svc_region (r0 region : String) :
    (if r0 ≠ region then some region else some r0) = some region := by
  by_cases h : r0 = region
  · simp [h]
  · simp [h]

theorem bucketOf_located {sess : Session} {n r0 region : String} {d : Time}
    (hcfg : sess.Config_Region = some r0)
    (hloc : sess.GetBucketLocation sess.Config_Region (some n) = .ok (some region)) :
    bucketOf ⟨some n, some d⟩ sess =
      match sess.GetBucketTagging (some region) (some n) with
      | .ok ts =>
        match tagLoop ts [] with
        | .error f => .error f
        | .ok tagset =>
          match ObjectList sess
              { CreationDate := d, Name := n, Region := region, BucketTags := some tagset } with
          | .error f => .error f
          | .ok mb => .ok (mb, none)
      | .error e =>
        if stringsContains e "NoSuchTagSet" = true then
          match ObjectList sess
              { CreationDate := d, Name := n, Region := region, BucketTags := some [] } with
          | .error f => .error f
          | .ok mb => .ok (mb, some e)
        else
          match ObjectList sess { CreationDate := d, Name := n, Region := region } with
          | .error f => .error f
          | .ok mb => .ok (mb, some e) := by
  rw [hcfg] at hloc
  simp only [bucketOf, deref, bind, Except.bind, pure, Except.pure, hcfg, hloc, svc_region]
  cases sess.GetBucketTagging (some region) (some n) with
  | error e =>
    dsimp only
    cases hc : stringsContains e "NoSuchTagSet" with
    | true =>
      simp only [tagLoop, Bool.not_true, Bool.false_eq_true, if_false, if_true]
      cases ObjectList sess
        { CreationDate := d, Name := n, Region := region, BucketTags := some [] } <;> rfl
    | false =>
      simp only [Bool.not_false, if_true, Bool.false_eq_true, if_false]
      cases ObjectList sess { CreationDate := d, Name := n, Region := region } <;> rfl
  | ok ts =>
    dsimp only
    rw [if_neg (by simp)]
    cases tagLoop ts [] with
    | error f => rfl
    | ok tagset =>
      dsimp only
      cases ObjectList sess
        { CreationDate := d, Name := n, Region := region, BucketTags := some tagset } <;> rfl

theorem bucketOf_name {b : S3Bucket} {sess : Session} {p : MetaBucket × Option Err}
    (h : bucketOf b sess = .ok p) :
    some p.1.Name = b.Name ∧ some p.1.CreationDate = b.CreationDate := by
  obtain ⟨name, date⟩ := b
  cases date with
  | none => simp [bucketOf, deref, bind, Except.bind] at h
  | some d =>
  cases name with
  | none => simp [bucketOf, deref, bind, Except.bind] at h
  | some n =>
  cases hloc : sess.GetBucketLocation sess.Config_Region (some n) with
  | error e =>
    simp only [bucketOf, deref, bind, Except.bind, pure, Except.pure, hloc, Except.ok.injEq] at h
    subst h
    exact ⟨rfl, rfl⟩
  | ok loc =>
    cases loc with
    | none => simp [bucketOf, deref, bind, Except.bind, hloc] at h
    | some region =>
      cases hcfg : sess.Config_Region with
      | none =>
        rw [hcfg] at hloc
        simp [bucketOf, deref, bind, Except.bind, hloc, hcfg] at h
      | some r0 =>
        rw [bucketOf_located hcfg hloc] at h
        have key : ∀ (tags : Option (GoMap String)) (e : Option Err),
            (match ObjectList sess
                { CreationDate := d, Name := n, Region := region, BucketTags := tags } with
              | .error f => .error f
              | .ok mb => .ok (mb, e)) = Except.ok p →
            some p.1.Name = some n ∧ some p.1.CreationDate = some d := by
          intro tags e hk
          cases ho : ObjectList sess
              { CreationDate := d, Name := n, Region := region, BucketTags := tags } with
          | error f => simp [ho] at hk
          | ok mb =>
            simp only [ho, Except.ok.injEq] at hk
            subst hk
            have hf := ObjectList_frame ho
            simp [hf.1, hf.2.1]
        revert h
        cases sess.GetBucketTagging (some region) (some n) with
        | error e =>
          dsimp only
          split_ifs
          · exact key _ _
          · exact key _ _
        | ok ts =>
          dsimp only
          cases tagLoop ts [] with
          | error f => simp
          | ok tagset => exact key _ _

/-! ## Lemmas on the fan-out and the join -/

theorem lt_length_of_getElem? {α : Type} {l : List α} {i : Nat} {a : α}
    (h : l[i]? = some a) : i < l.length := by
  by_contra hn
  rw [List.getElem?_eq_none (Nat.le_of_not_lt hn)] at h
  cases h

theorem slotOf_of_ok {sess : Session} {b : S3Bucket} {p : MetaBucket × Option Err}
    (h : bucketOf b sess = .ok p) : slotOf sess b = some p.1 := by
  simp [slotOf, h]

theorem runTasks_ok (sess : Session) (buckets : List S3Bucket) :
    ∀ (order : List Nat) (arr : List (Option MetaBucket)), arr.length = buckets.length →
      (∀ i ∈ order, ∀ b, buckets[i]? = some b → ∃ p, bucketOf b sess = .ok p) →
      runTasks sess buckets order arr = .ok (writeSlots sess buckets order arr) := by
  intro order
  induction order with
  | nil => intro arr _ _; rfl
  | cons i order ih =>
    intro arr hlen hok
    cases hb : buckets[i]? with
    | none =>
      simp only [runTasks, writeSlots, hb]
      exact ih arr hlen (fun j hj => hok j (List.mem_cons_of_mem _ hj))
    | some b =>
      obtain ⟨p, hp⟩ := hok i (List.mem_cons_self _ _) b hb
      have hi : ¬ arr.length ≤ i := by
        have := lt_length_of_getElem? hb
        omega
      simp only [runTasks, writeSlots, hb, GetBucketMeta_eq, hi, if_false, hp,
        slotOf_of_ok hp]
      exact ih _ (by simp [hlen]) (fun j hj => hok j (List.mem_cons_of_mem _ hj))

theorem runTasks_inv (sess : Session) (buckets : List S3Bucket) :
    ∀ (order : List Nat) (arr arr' : List (Option MetaBucket)), arr.length = buckets.length →
      runTasks sess buckets order arr = .ok arr' →
      ∀ i ∈ order, ∀ b, buckets[i]? = some b → ∃ p, bucketOf b sess = .ok p := by
  intro order
  induction order with
  | nil => intro arr arr' _ _ i hi; cases hi
  | cons j order ih =>
    intro arr arr' hlen h i hi b hb
    cases hj : buckets[j]? with
    | none =>
      simp only [runTasks, hj] at h
      rcases List.mem_cons.mp hi with rfl | hi'
      · rw [hj] at hb; cases hb
      · exact ih arr arr' hlen h i hi' b hb
    | some bj =>
      have hjlt : ¬ arr.length ≤ j := by
        have := lt_length_of_getElem? hj
        omega
      simp only [runTasks, hj, GetBucketMeta_eq, hjlt, if_false] at h
      cases hp : bucketOf bj sess with
      | error f => simp [hp] at h
      | ok p =>
        simp only [hp] at h
        rcases List.mem_cons.mp hi with rfl | hi'
        · rw [hj] at hb
          cases hb
          exact ⟨p, hp⟩
        · exact ih _ arr' (by simp [hlen]) h i hi' b hb

theorem writeSlots_getElem? (sess : Session) (buckets : List S3Bucket) :
    ∀ (order : List Nat) (arr : List (Option MetaBucket)) (i : Nat),
      arr.length = buckets.length →
      (writeSlots sess buckets order arr)[i]? =
        if i ∈ order then (buckets[i]?).map (slotOf sess) else arr[i]? := by
  intro order
  induction order with
  | nil => intro arr i _; simp [writeSlots]
  | cons j order ih =>
    intro arr i hlen
    cases hj : buckets[j]? with
    | none =>
      simp only [writeSlots, hj]
      rw [ih arr i hlen]
      by_cases hio : i ∈ order
      · simp [hio]
      · by_cases hij : i = j
        · subst hij
          have hge : buckets.length ≤ i := by
            by_contra hn
            rw [List.getElem?_eq_getElem (Nat.lt_of_not_le hn)] at hj
            cases hj
          simp [hio, hj, List.getElem?_eq_none (hlen ▸ hge)]
        · simp [hio, hij]
    | some b =>
      simp only [writeSlots, hj]
      rw [ih _ i (by simp [hlen])]
      by_cases hio : i ∈ order
      · simp [hio]
      · by_cases hij : i = j
        · subst hij
          have hlt : i < arr.length := hlen ▸ lt_length_of_getElem? hj
          simp [hio, hj, List.getElem?_set, hlt]
        · have hji : ¬ j = i := fun e => hij e.symm
          simp [hio, hij, List.getElem?_set, hji]

theorem writeSlots_perm (sess : Session) (buckets : List S3Bucket) (order : List Nat)
    (arr : List (Option MetaBucket)) (hlen : arr.length = buckets.length)
    (hperm : order.Perm (List.range buckets.length)) :
    writeSlots sess buckets order arr = buckets.map (fun b => slotOf sess b) := by
  apply List.ext_getElem?
  intro i
  rw [writeSlots_getElem? sess buckets order arr i hlen]
  by_cases hi : i < buckets.length
  · have hmem : i ∈ order := hperm.mem_iff.mpr (List.mem_range.mpr hi)
    simp [hmem]
  · have hmem : ¬ i ∈ order := fun h => hi (List.mem_range.mp (hperm.mem_iff.mp h))
    have hge : buckets.length ≤ i := Nat.le_of_not_lt hi
    simp [hmem, List.getElem?_eq_none hge, List.getElem?_eq_none (hlen ▸ hge)]

theorem all_ok_of_perm {sess : Session} {buckets : List S3Bucket} {order : List Nat}
    (hperm : order.Perm (List.range buckets.length))
    (h : ∀ i ∈ order, ∀ b, buckets[i]? = some b → ∃ p, bucketOf b sess = .ok p) :
    ∀ b ∈ buckets, ∃ p, bucketOf b sess = .ok p := by
  intro b hb
  obtain ⟨i, hi, hget⟩ := List.getElem_of_mem hb
  have hmem : i ∈ order := hperm.mem_iff.mpr (List.mem_range.mpr hi)
  exact h i hmem b (by rw [List.getElem?_eq_getElem hi, hget])

theorem BucketList_of_ok {sess : Session} {buckets : List S3Bucket} {order : List Nat}
    (hlist : sess.ListBuckets sess.Config_Region = .ok buckets)
    (hperm : order.Perm (List.range buckets.length))
    (hok : ∀ b ∈ buckets, ∃ p, bucketOf b sess = .ok p) :
    BucketList sess order =
      .ok { bucketArray := buckets.map (fun b => slotOf sess b), err := none,
            launched := buckets.length } := by
  have h1 := runTasks_ok sess buckets order (List.replicate buckets.length none) (by simp)
    (fun i _ b hb => hok b (List.getElem?_mem hb))
  rw [writeSlots_perm sess buckets order _ (by simp) hperm] at h1
  simp only [BucketList, hlist, h1]

theorem BucketList_inv {sess : Session} {buckets : List S3Bucket} {order : List Nat}
    {r : BucketListResult}
    (hlist : sess.ListBuckets sess.Config_Region = .ok buckets)
    (hperm : order.Perm (List.range buckets.length))
    (h : BucketList sess order = .ok r) :
    ∀ b ∈ buckets, ∃ p, bucketOf b sess = .ok p := by
  simp only [BucketList, hlist] at h
  cases hr : runTasks sess buckets order (List.replicate buckets.length none) with
  | error f => simp [hr] at h
  | ok arr => exact all_ok_of_perm hperm (runTasks_inv sess buckets order _ arr (by simp) hr)

theorem SyncMetadata_of_ok {ad : AwsAdapter} {buckets : List S3Bucket} {order : List Nat}
    (db : Mongo)
    (hlist : ad.Session.ListBuckets ad.Session.Config_Region = .ok buckets)
    (hperm : order.Perm (List.range buckets.length))
    (hok : ∀ b ∈ buckets, ∃ p, bucketOf b ad.Session = .ok p) :
    SyncMetadata ad order db =
      .ok { err := (CreateMetadata db
                (aggregateOf ad.Backend (buckets.map (fun b => slotOf ad.Session b)))).2,
            db := (CreateMetadata db
                (aggregateOf ad.Backend (buckets.map (fun b => slotOf ad.Session b)))).1,
            launched := buckets.length } := by
  simp only [SyncMetadata, BucketList_of_ok hlist hperm hok, aggregateOf]

theorem SyncMetadata_inv {ad : AwsAdapter} {buckets : List S3Bucket} {order : List Nat}
    {db : Mongo} {r : SyncResult}
    (hlist : ad.Session.ListBuckets ad.Session.Config_Region = .ok buckets)
    (hperm : order.Perm (List.range buckets.length))
    (h : SyncMetadata ad order db = .ok r) :
    ∀ b ∈ buckets, ∃ p, bucketOf b ad.Session = .ok p := by
  cases hb : BucketList ad.Session order with
  | error f => simp [SyncMetadata, hb] at h
  | ok res => exact BucketList_inv hlist hperm hb

theorem SyncMetadata_of_list_error {ad : AwsAdapter} {e : Err} (order : List Nat) (db : Mongo)
    (hlist : ad.Session.ListBuckets ad.Session.Config_Region = .error e) :
    SyncMetadata ad order db = .ok { err := some e, db := db, launched := 0 } := by
  simp [SyncMetadata, BucketList, hlist]

/-! ## Lemmas on the store write -/

theorem findDoc_replaceUpsert (id : String) (d : Document) (hd : d.body.Id = id) :
    ∀ docs : List Document, findDoc id (replaceUpsert id d docs) = some d := by
  intro docs
  induction docs with
  | nil => simp [replaceUpsert, findDoc, hd]
  | cons x rest ih =>
    by_cases hx : x.body.Id = id
    · simp [replaceUpsert, findDoc, hx, hd]
    · simp [replaceUpsert, findDoc, hx, ih]

theorem replaceUpsert_idem (id : String) (d : Document) (hd : d.body.Id = id) :
    ∀ docs : List Document,
      replaceUpsert id d (replaceUpsert id d docs) = replaceUpsert id d docs := by
  intro docs
  induction docs with
  | nil => simp [replaceUpsert, hd]
  | cons x rest ih =>
    by_cases hx : x.body.Id = id
    · simp [replaceUpsert, hx, hd]
    · simp [replaceUpsert, hx, ih]

/-! ## Lemmas on failures and on completion -/

theorem objectLoop_heads (sess : Session) (region : Option String) (bucketName : String) :
    ∀ (contents : List S3Object) (totSize : Int) (objectArray : List MetaObject)
      (res : Int × List MetaObject),
      objectLoop sess region bucketName contents totSize objectArray = .ok (some res) →
      ∀ o ∈ contents, ∃ meta, sess.HeadObject region bucketName o.Key = .ok meta := by
  intro contents
  induction contents with
  | nil => intro _ _ _ _ o ho; cases ho
  | cons object rest ih =>
    intro totSize objectArray res h o ho
    obtain ⟨key, lastModified, size, storageClass⟩ := object
    cases lastModified with
    | none => simp [objectLoop, deref, bind, Except.bind] at h
    | some lm =>
    cases key with
    | none => simp [objectLoop, deref, bind, Except.bind] at h
    | some k =>
    cases size with
    | none => simp [objectLoop, deref, bind, Except.bind] at h
    | some sz =>
    cases storageClass with
    | none => simp [objectLoop, deref, bind, Except.bind] at h
    | some sc =>
    simp only [objectLoop, deref, bind, Except.bind] at h
    cases hh : sess.HeadObject region bucketName (some k) with
    | error e => simp [hh] at h
    | ok meta =>
      simp only [hh] at h
      cases hf : fillFromHead sess
          { ObjectName := k, LastModifiedDate := lm, Size := sz, StorageClass := sc } meta with
      | error f => simp [hf] at h
      | ok obj =>
        simp only [hf] at h
        rcases List.mem_cons.mp ho with rfl | ho'
        · exact ⟨meta, hh⟩
        · exact ih _ _ _ h o ho'

theorem fillFromHead_ObjectName {sess : Session} {obj obj' : MetaObject}
    {meta : HeadObjectOutput} (h : fillFromHead sess obj meta = .ok obj') :
    obj'.ObjectName = obj.ObjectName := by
  obtain ⟨sse, vid, ct, exp, rs⟩ := meta
  cases ct with
  | none => simp [fillFromHead, deref, bind, Except.bind] at h
  | some c =>
    simp only [fillFromHead, deref, bind, Except.bind, pure, Except.pure] at h
    injection h with h
    subst h
    cases sse <;> cases vid <;> cases rs <;> cases exp <;> simp <;>
      (split <;> rfl)

theorem objectLoop_fields (sess : Session) (region : Option String) (bucketName : String) :
    ∀ (contents : List S3Object) (totSize : Int) (objectArray : List MetaObject)
      (tot' : Int) (objs' : List MetaObject),
      objectLoop sess region bucketName contents totSize objectArray = .ok (some (tot', objs')) →
      ∃ added, objs' = objectArray ++ added ∧
        added.map (fun o => some o.Size) = contents.map (fun o => o.Size) ∧
        added.map (fun o => some o.ObjectName) = contents.map (fun o => o.Key) := by
  intro contents
  induction contents with
  | nil =>
    intro totSize objectArray tot' objs' h
    simp only [objectLoop, Except.ok.injEq, Option.some.injEq, Prod.mk.injEq] at h
    exact ⟨[], by simp [h.2], rfl, rfl⟩
  | cons object rest ih =>
    intro totSize objectArray tot' objs' h
    obtain ⟨key, lastModified, size, storageClass⟩ := object
    cases lastModified with
    | none => simp [objectLoop, deref, bind, Except.bind] at h
    | some lm =>
    cases key with
    | none => simp [objectLoop, deref, bind, Except.bind] at h
    | some k =>
    cases size with
    | none => simp [objectLoop, deref, bind, Except.bind] at h
    | some sz =>
    cases storageClass with
    | none => simp [objectLoop, deref, bind, Except.bind] at h
    | some sc =>
    simp only [objectLoop, deref, bind, Except.bind] at h
    cases hh : sess.HeadObject region bucketName (some k) with
    | error e => simp [hh] at h
    | ok meta =>
      simp only [hh] at h
      cases hf : fillFromHead sess
          { ObjectName := k, LastModifiedDate := lm, Size := sz, StorageClass := sc } meta with
      | error f => simp [hf] at h
      | ok obj =>
        simp only [hf] at h
        obtain ⟨added, h1, h2, h3⟩ := ih _ _ _ _ h
        have hsz : obj.Size = sz := fillFromHead_Size hf
        have hnm : obj.ObjectName = k := fillFromHead_ObjectName hf
        refine ⟨obj :: added, ?_, ?_, ?_⟩
        · simp [h1]
        · simp [h2, hsz]
        · simp [h3, hnm]

theorem objectLoop_none (sess : Session) (region : Option String) (bucketName : String) :
    ∀ (contents : List S3Object) (totSize : Int) (objectArray : List MetaObject),
      objectLoop sess region bucketName contents totSize objectArray = .ok none →
      ∃ o ∈ contents, ∃ e, sess.HeadObject region bucketName o.Key = .error e := by
  intro contents
  induction contents with
  | nil =>
    intro totSize objectArray h
    simp [objectLoop] at h
  | cons object rest ih =>
    intro totSize objectArray h
    obtain ⟨key, lastModified, size, storageClass⟩ := object
    cases lastModified with
    | none => simp [objectLoop, deref, bind, Except.bind] at h
    | some lm =>
    cases key with
    | none => simp [objectLoop, deref, bind, Except.bind] at h
    | some k =>
    cases size with
    | none => simp [objectLoop, deref, bind, Except.bind] at h
    | some sz =>
    cases storageClass with
    | none => simp [objectLoop, deref, bind, Except.bind] at h
    | some sc =>
    simp only [objectLoop, deref, bind, Except.bind] at h
    cases hh : sess.HeadObject region bucketName (some k) with
    | error e => exact ⟨_, List.mem_cons_self _ _, e, hh⟩
    | ok meta =>
      simp only [hh] at h
      cases hf : fillFromHead sess
          { ObjectName := k, LastModifiedDate := lm, Size := sz, StorageClass := sc } meta with
      | error f => simp [hf] at h
      | ok obj =>
        simp only [hf] at h
        obtain ⟨o, ho, e, he⟩ := ih _ _ h
        exact ⟨o, List.mem_cons_of_mem _ ho, e, he⟩

theorem ObjectList_outcome {sess : Session} {b b' : MetaBucket}
    (h : ObjectList sess b = .ok b') :
    (((∃ e, sess.ListObjectsV2 (some b.Region) b.Name = .error e) ∨
        ∃ contents, sess.ListObjectsV2 (some b.Region) b.Name = .ok contents ∧
          ∃ o ∈ contents, ∃ e, sess.HeadObject (some b.Region) b.Name o.Key = .error e) ∧
      b' = b) ∨
    ∃ contents, sess.ListObjectsV2 (some b.Region) b.Name = .ok contents ∧
      (∀ o ∈ contents, ∃ meta, sess.HeadObject (some b.Region) b.Name o.Key = .ok meta) ∧
      b'.Objects.map (fun o => some o.Size) = contents.map (fun o => o.Size) ∧
      b'.Objects.map (fun o => some o.ObjectName) = contents.map (fun o => o.Key) ∧
      b'.NumberOfObjects = contents.length ∧
      b'.TotalSize = wrap64 (sumSizes b'.Objects) := by
  unfold ObjectList at h
  cases hl : sess.ListObjectsV2 (some b.Region) b.Name with
  | error e =>
    simp only [hl, Except.ok.injEq] at h
    exact Or.inl ⟨Or.inl ⟨e, rfl⟩, h.symm⟩
  | ok contents =>
    simp only [hl] at h
    cases ho : objectLoop sess (some b.Region) b.Name contents 0 [] with
    | error f => simp [ho] at h
    | ok res =>
      cases res with
      | none =>
        simp only [ho, Except.ok.injEq] at h
        exact Or.inl ⟨Or.inr ⟨contents, rfl, objectLoop_none sess _ _ contents 0 [] ho⟩, h.symm⟩
      | some p =>
        obtain ⟨tot, objs⟩ := p
        simp only [ho, Except.ok.injEq] at h
        obtain ⟨added, h1, h2, h3⟩ := objectLoop_spec sess _ _ contents 0 [] tot objs rfl ho
        obtain ⟨added', g1, g2, g3⟩ := objectLoop_fields sess _ _ contents 0 [] tot objs ho
        simp only [List.nil_append] at h1 g1
        subst g1
        right
        refine ⟨contents, rfl, objectLoop_heads sess _ _ contents 0 [] _ ho, ?_, ?_, ?_, ?_⟩
        · rw [← h]; exact g2
        · rw [← h]; exact g3
        · rw [← h]
        · rw [← h, h3, h1]; simp

theorem ObjectList_unchanged_of_failure {sess : Session} {b b' : MetaBucket}
    (h : ObjectList sess b = .ok b')
    (hfail : (∃ e, sess.ListObjectsV2 (some b.Region) b.Name = .error e) ∨
      ∃ contents, sess.ListObjectsV2 (some b.Region) b.Name = .ok contents ∧
        ∃ o ∈ contents, ∃ e, sess.HeadObject (some b.Region) b.Name o.Key = .error e) :
    b' = b := by
  unfold ObjectList at h
  rcases hfail with ⟨e, he⟩ | ⟨contents, hc, o, ho, e, he⟩
  · simp only [he, Except.ok.injEq] at h
    exact h.symm
  · simp only [hc] at h
    cases hl : objectLoop sess (some b.Region) b.Name contents 0 [] with
    | error f => simp [hl] at h
    | ok res =>
      cases res with
      | none =>
        simp only [hl, Except.ok.injEq] at h
        exact h.symm
      | some p =>
        obtain ⟨meta, hm⟩ := objectLoop_heads sess _ _ contents 0 [] p hl o ho
        rw [he] at hm
        cases hm

theorem bucketOf_of_TasksComplete {sess : Session} {buckets : List S3Bucket}
    (h : TasksComplete sess buckets) : ∀ b ∈ buckets, ∃ p, bucketOf b sess = .ok p := by
  intro b hb
  obtain ⟨i, hi, hget⟩ := List.getElem_of_mem hb
  obtain ⟨p, hp⟩ := h i b (by rw [List.getElem?_eq_getElem hi, hget])
  rw [GetBucketMeta_eq] at hp
  have hlen : ¬ (List.replicate buckets.length (none : Option MetaBucket)).length ≤ i := by
    simp [hi]
  rw [if_neg hlen] at hp
  cases hq : bucketOf b sess with
  | error f => simp [hq] at hp
  | ok q => exact ⟨q, rfl⟩

theorem exSession_complete (sess : Session)
    (h0 : ∃ p, GetBucketMeta 0 ⟨some "b1", some 10⟩ sess [none, none] = .ok p)
    (h1 : ∃ p, GetBucketMeta 1 ⟨some "b2", some 20⟩ sess [none, none] = .ok p) :
    TasksComplete sess
      [ { Name := some "b1", CreationDate := some 10 },
        { Name := some "b2", CreationDate := some 20 } ] := by
  intro i b hb
  match i with
  | 0 =>
    simp only [List.getElem?_cons_zero, Option.some.injEq] at hb
    subst hb
    exact h0
  | 1 =>
    simp only [List.getElem?_cons_succ, List.getElem?_cons_zero, Option.some.injEq] at hb
    subst hb
    exact h1
  | n + 2 => simp at hb

theorem SyncMetadata_store_result (db : Mongo) (agg : MetaBackend) :
    (CreateMetadata db agg).2 = db.down ∧
    (CreateMetadata db agg).1.ops = db.ops ++ [StoreOp.replaceOne agg.Id] ∧
    (CreateMetadata db agg).1.down = db.down ∧
    (db.down = none →
      (CreateMetadata db agg).1.docs = replaceUpsert agg.Id ⟨none, agg⟩ db.docs) ∧
    (db.down ≠ none → (CreateMetadata db agg).1.docs = db.docs) := by
  cases hd : db.down with
  | none => simp [CreateMetadata, Mongo.ReplaceOne, hd]
  | some e => simp [CreateMetadata, Mongo.ReplaceOne, hd]


theorem findDoc_upsert_aggregate (backend : BackendDetail) (arr : List (Option MetaBucket))
    (docs : List Document) :
    findDoc backend.Id
        (replaceUpsert (aggregateOf backend arr).Id ⟨none, aggregateOf backend arr⟩ docs) =
      some ⟨none, aggregateOf backend arr⟩ :=
  findDoc_replaceUpsert backend.Id ⟨none, aggregateOf backend arr⟩ rfl docs

theorem replaceUpsert_idem_aggregate (backend : BackendDetail)
    (arr : List (Option MetaBucket)) (docs : List Document) :
    replaceUpsert (aggregateOf backend arr).Id ⟨none, aggregateOf backend arr⟩
        (replaceUpsert (aggregateOf backend arr).Id ⟨none, aggregateOf backend arr⟩ docs) =
      replaceUpsert (aggregateOf backend arr).Id ⟨none, aggregateOf backend arr⟩ docs :=
  replaceUpsert_idem (aggregateOf backend arr).Id ⟨none, aggregateOf backend arr⟩ rfl docs

/-! ## Properties of the store adapter -/

/-- C3, as stated, fails: on a nil filter map, under a non-privileged context
that carries a tenant id, `UpdateContextFilter` ends with the fault of an
assignment to a nil map, where the reference definition returns success
with the key "tenantid" set. -/
theorem UpdateContextFilter_faults_on_nil_map :
    contextIsAdmin exCommon (some [("Tenantid", "A")]) = false ∧
    contextTenant exCommon (some [("Tenantid", "A")]) = some "A" ∧
    UpdateContextFilter exCommon (some [("Tenantid", "A")]) none =
      .error Fault.nilMapAssignment ∧
    (UpdateContextFilterRef exCommon (some [("Tenantid", "A")]) (M.index none)).2 = false ∧
    (UpdateContextFilterRef exCommon (some [("Tenantid", "A")]) (M.index none)).1 "tenantid" =
      some "A" :=
  ⟨rfl, rfl, rfl, rfl, rfl⟩

/-- C3, amended: for every context and every filter map that is not nil, or
that the call does not assign to (the context has no identity metadata, is
privileged, or carries no tenant id), `UpdateContextFilter` returns and
agrees with the reference definition: the filter it leaves has the lookups
of the reference map, it returns an error exactly when the reference does,
in every error case the filter is left as it was, and so it is under a
privileged context. -/
theorem UpdateContextFilter_eq_ref (c : Common) (ctx : Context) (m : M)
    (hm : m = none → contextIsAdmin c ctx = true ∨ contextTenant c ctx = none) :
    ∃ (m' : M) (e : Option Err), UpdateContextFilter c ctx m = .ok (m', e) ∧
      (∀ k, M.index m' k = (UpdateContextFilterRef c ctx (M.index m)).1 k) ∧
      e.isSome = (UpdateContextFilterRef c ctx (M.index m)).2 ∧
      (e.isSome = true → m' = m) ∧
      (contextIsAdmin c ctx = true → m' = m) := by
  cases ctx with
  | none => exact ⟨m, _, rfl, by simp [UpdateContextFilterRef]⟩
  | some md =>
    by_cases hadm : mapIndex md c.CTX_KEY_IS_ADMIN = some "true"
    · refine ⟨m, none, ?_, ?_⟩
      · simp [UpdateContextFilter, hadm, CTX_VAL_TRUE]
      · simp [UpdateContextFilterRef, contextIsAdmin, hadm]
    · have h1 : ¬ (mapIndex md c.CTX_KEY_IS_ADMIN).getD "" = CTX_VAL_TRUE :=
        fun h => hadm ((getD_eq_true_iff _).mp h)
      cases hT : mapIndex md c.CTX_KEY_TENANT_ID with
      | none =>
        refine ⟨m, some "get tenantid failed", ?_, ?_⟩
        · simp [UpdateContextFilter, h1, hT]
        · simp [UpdateContextFilterRef, contextIsAdmin, contextTenant, hadm, hT]
      | some T =>
        cases m with
        | none =>
          rcases hm rfl with h | h
          · simp [contextIsAdmin, hadm] at h
          · simp [contextTenant, hT] at h
        | some entries =>
          refine ⟨some (mapAssign entries "tenantid" T), none, ?_, ?_⟩
          · simp [UpdateContextFilter, h1, hT]
          · simp [UpdateContextFilterRef, contextIsAdmin, contextTenant, hadm, hT, M.index,
              mapIndex_mapAssign]

/-- Witness of C3, amended: a non-nil filter under a context of tenant A. -/
theorem UpdateContextFilter_eq_ref_witness :
    ∃ (m' : M) (e : Option Err),
      UpdateContextFilter exCommon (some [("Tenantid", "A")]) (some [("region", "eu")]) =
        .ok (m', e) ∧
      (∀ k, M.index m' k =
        (UpdateContextFilterRef exCommon (some [("Tenantid", "A")])
          (M.index (some [("region", "eu")]))).1 k) ∧
      e.isSome =
        (UpdateContextFilterRef exCommon (some [("Tenantid", "A")])
          (M.index (some [("region", "eu")]))).2 :=
  let h := UpdateContextFilter_eq_ref exCommon (some [("Tenantid", "A")])
    (some [("region", "eu")]) (fun h => nomatch h)
  h.elim (fun m' hm => hm.elim (fun e he => ⟨m', e, he.1, he.2.1, he.2.2.1⟩))

/-- C1, as stated, fails: under a non-privileged context of tenant A and the
empty pipeline, `ListMetadata` returns the aggregate of tenant B. -/
theorem ListMetadata_returns_other_tenant :
    contextIsAdmin exCommon (some [("Tenantid", "A")]) = false ∧
    contextTenant exCommon (some [("Tenantid", "A")]) = some "A" ∧
    ∃ r ∈ (ListMetadata exMongo (some [("Tenantid", "A")]) []).2.1,
      ¬ belongsTo exMongo.docs "A" r := by
  refine ⟨rfl, rfl, { Id := "2", BackendName := "backend-b" }, ?_, ?_⟩
  · simp [ListMetadata, Mongo.Aggregate, Mongo.All, exMongo, exDocs]
  · rintro ⟨d, hd, hb, ht⟩
    simp only [exMongo, exDocs, List.mem_cons, List.mem_singleton, List.not_mem_nil,
      or_false] at hd
    rcases hd with rfl | rfl
    · simp at hb
    · simp at ht

/-- C1, amended: `ListMetadata` does not consult the context (its result is
the same under any two contexts); under a non-privileged context of tenant T
`UpdateContextFilter` scopes every non-nil filter with the tenant, and every
aggregate `ListMetadata` returns belongs to tenant T when the pipeline it is
given starts with a `$match` on a filter so scoped, and goes on with
`$match`, `$limit` and `$skip` stages only. -/
theorem ListMetadata_isolated_of_scoped (c : Common) (db : Mongo) (ctx ctx' : Context)
    (T : String) (m : M) (rest : List Stage)
    (hadm : contextIsAdmin c ctx = false) (hT : contextTenant c ctx = some T) :
    (∀ q, ListMetadata db ctx q = ListMetadata db ctx' q) ∧
    (∀ entries, m = some entries →
      UpdateContextFilter c ctx m = .ok (some (mapAssign entries "tenantid" T), none)) ∧
    ∀ (filter : GoMap String) (e : Option Err),
      UpdateContextFilter c ctx m = .ok (some filter, e) →
      e = none ∧
      ∀ r ∈ (ListMetadata db ctx' (Stage.matchStage filter :: rest)).2.1,
        belongsTo db.docs T r := by
  refine ⟨fun q => rfl, ?_⟩
  cases ctx with
  | none => simp [contextTenant] at hT
  | some md =>
    have hadm' : ¬ mapIndex md c.CTX_KEY_IS_ADMIN = some "true" := by
      simpa [contextIsAdmin] using hadm
    have h1 : ¬ (mapIndex md c.CTX_KEY_IS_ADMIN).getD "" = CTX_VAL_TRUE :=
      fun h => hadm' ((getD_eq_true_iff _).mp h)
    have hT' : mapIndex md c.CTX_KEY_TENANT_ID = some T := by
      simpa [contextTenant] using hT
    have hm : ∀ entries, m = some entries →
        UpdateContextFilter c (some md) m =
          .ok (some (mapAssign entries "tenantid" T), none) := by
      intro entries he
      subst he
      simp [UpdateContextFilter, h1, hT']
    refine ⟨hm, ?_⟩
    intro filter e hs
    cases m with
    | none => simp [UpdateContextFilter, h1, hT'] at hs
    | some entries =>
      rw [hm entries rfl] at hs
      simp only [Except.ok.injEq, Prod.mk.injEq, Option.some.injEq] at hs
      obtain ⟨hs1, hs2⟩ := hs
      subst hs1
      refine ⟨hs2.symm, ?_⟩
      intro r hr
      obtain ⟨d, hd, hbody⟩ := ListMetadata_results db ctx' _ r hr
      rw [List.foldl_cons] at hd
      have hd' := mem_foldl_runStage rest hd
      have hd'' := List.mem_filter.mp hd'
      exact ⟨d, hd''.1, hbody,
        tenant_of_matchesFilter (mem_mapAssign entries "tenantid" T) hd''.2⟩

/-- Witness of C1, amended: tenant A scopes an empty filter and queries the
two-tenant store. -/
theorem ListMetadata_isolated_of_scoped_witness :
    contextIsAdmin exCommon (some [("Tenantid", "A")]) = false ∧
    contextTenant exCommon (some [("Tenantid", "A")]) = some "A" ∧
    UpdateContextFilter exCommon (some [("Tenantid", "A")]) (some []) =
      .ok (some [("tenantid", "A")], none) ∧
    ∀ r ∈ (ListMetadata exMongo none
        (Stage.matchStage [("tenantid", "A")] :: [Stage.limit 5])).2.1,
      belongsTo exMongo.docs "A" r :=
  let h := ListMetadata_isolated_of_scoped exCommon exMongo (some [("Tenantid", "A")]) none "A"
    (some []) [Stage.limit 5] rfl rfl
  ⟨rfl, rfl, h.2.1 [] rfl, (h.2.2 [("tenantid", "A")] none rfl).2⟩

/-- C2, as stated, fails: under a context with no identity metadata,
`ListMetadata` runs the aggregation on the store and reads its cursor,
returns no error and returns the stored aggregates. -/
theorem ListMetadata_runs_without_identity :
    contextIsAdmin exCommon none = false ∧ contextTenant exCommon none = none ∧
    (ListMetadata exMongo none []).2.2 = none ∧
    (ListMetadata exMongo none []).2.1 = exDocs.map Document.body ∧
    (ListMetadata exMongo none []).1.ops = [StoreOp.aggregate, StoreOp.cursorAll] := by
  refine ⟨rfl, rfl, rfl, rfl, rfl⟩

/-- C2, amended: for a context that yields neither a tenant identity nor the
privileged flag, `UpdateContextFilter` returns an error and leaves the filter
as it was, and it has no access to the store; `ListMetadata` does not
consult the context: under every context it sends the aggregation to the
store and leaves the documents as they are; it returns the error and no
aggregates when `Aggregate` fails and when `cur.All` fails on the cursor, and
otherwise it returns the decoded aggregates and no error. -/
theorem ListMetadata_fails_only_with_store (c : Common) (db : Mongo) (ctx : Context)
    (query : List Stage) (m : M)
    (hadm : contextIsAdmin c ctx = false) (hT : contextTenant c ctx = none) :
    (∃ e, UpdateContextFilter c ctx m = .ok (m, some e)) ∧
    (∀ ctx', ListMetadata db ctx query = ListMetadata db ctx' query) ∧
    (∃ more, (ListMetadata db ctx query).1.ops = db.ops ++ StoreOp.aggregate :: more) ∧
    (ListMetadata db ctx query).1.docs = db.docs ∧
    (∀ e, (db.Aggregate query).2 = .error e →
      (ListMetadata db ctx query).2 = ([], some e)) ∧
    (∀ cur e, (db.Aggregate query).2 = .ok cur → db.allErr cur = some e →
      (ListMetadata db ctx query).2 = ([], some e)) ∧
    (∀ cur, (db.Aggregate query).2 = .ok cur → db.allErr cur = none →
      (ListMetadata db ctx query).2 = (cur.map Document.body, none)) := by
  constructor
  · cases ctx with
    | none => exact ⟨_, rfl⟩
    | some md =>
      have hadm' : ¬ mapIndex md c.CTX_KEY_IS_ADMIN = some "true" := by
        simpa [contextIsAdmin] using hadm
      have h1 : ¬ (mapIndex md c.CTX_KEY_IS_ADMIN).getD "" = CTX_VAL_TRUE :=
        fun h => hadm' ((getD_eq_true_iff _).mp h)
      have hT' : mapIndex md c.CTX_KEY_TENANT_ID = none := by
        simpa [contextTenant] using hT
      exact ⟨"get tenantid failed", by simp [UpdateContextFilter, h1, hT']⟩
  · refine ⟨fun _ => rfl, ?_⟩
    cases hdown : db.down with
    | some e0 => simp [ListMetadata, Mongo.Aggregate, hdown]
    | none =>
      cases hp : db.pipelineErr query with
      | some e0 => simp [ListMetadata, Mongo.Aggregate, hdown, hp]
      | none =>
        cases ha : db.allErr (List.foldl runStage db.docs query) with
        | some e0 =>
          simp only [ListMetadata, Mongo.Aggregate, Mongo.All, hdown, hp, ha]
          refine ⟨⟨[StoreOp.cursorAll], by simp⟩, trivial, ?_, ?_, ?_⟩
          · intro e he
            cases he
          · intro cur e hc h'
            simp only [Except.ok.injEq] at hc
            subst hc
            rw [ha] at h'
            cases h'
            rfl
          · intro cur hc h'
            simp only [Except.ok.injEq] at hc
            subst hc
            rw [ha] at h'
            cases h'
        | none =>
          simp only [ListMetadata, Mongo.Aggregate, Mongo.All, hdown, hp, ha]
          refine ⟨⟨[StoreOp.cursorAll], by simp⟩, trivial, ?_, ?_, ?_⟩
          · intro e he
            cases he
          · intro cur e hc h'
            simp only [Except.ok.injEq] at hc
            subst hc
            rw [ha] at h'
            cases h'
          · intro cur hc _
            simp only [Except.ok.injEq] at hc
            subst hc
            rfl

/-- Witness of C2, amended: a context whose metadata has neither attribute,
on a store whose results `cur.All` cannot decode. -/
theorem ListMetadata_fails_only_with_store_witness :
    (∃ e, UpdateContextFilter exCommon (some [("Trace", "x")]) (some [("region", "eu")]) =
      .ok (some [("region", "eu")], some e)) ∧
    (ListMetadata exMongoUndecodable (some [("Trace", "x")]) []).2 =
      ([], some "cannot decode") :=
  let h := ListMetadata_fails_only_with_store exCommon exMongoUndecodable
    (some [("Trace", "x")]) [] (some [("region", "eu")]) rfl rfl
  ⟨h.1, h.2.2.2.2.2.1 exDocs "cannot decode" rfl rfl⟩

/-! ## Properties of the object enumerator -/

/-- C4, as stated, fails: when the object listing is rejected, `ObjectList`
returns with the bucket as it was, so a bucket that came in with a count of
7 and no objects leaves with a count of 7 and no objects. -/
theorem ObjectList_keeps_stale_count :
    ObjectList exSessionNoListing { Name := "b1", NumberOfObjects := 7 } =
      .ok { Name := "b1", NumberOfObjects := 7 } ∧
    ¬ SnapshotInvariant { Name := "b1", NumberOfObjects := 7 } := by
  refine ⟨rfl, ?_⟩
  intro h
  have h1 := h.1
  simp at h1

/-- C4, amended: for every bucket and every run of provider responses, after
`ObjectList` returns, one of two things holds.  Either the object listing or
a head request failed, and the bucket is exactly as it was on entry.  Or the
listing and every head request succeeded, and then, whatever the bucket
held on entry, it holds one record per listed object with its key and its
size, `NumberOfObjects` is the number of listed objects and the length of
`Objects`, and `TotalSize` is the exact sum of their sizes whenever that
sum fits in a signed 64-bit integer.  Hence a bucket that satisfies the
snapshot invariant on entry, as the zero-valued bucket of `GetBucketMeta`
does, satisfies it after the call. -/
theorem ObjectList_snapshot_invariant (sess : Session) (b b' : MetaBucket)
    (h : ObjectList sess b = .ok b') :
    ((((∃ e, sess.ListObjectsV2 (some b.Region) b.Name = .error e) ∨
          ∃ contents, sess.ListObjectsV2 (some b.Region) b.Name = .ok contents ∧
            ∃ o ∈ contents, ∃ e, sess.HeadObject (some b.Region) b.Name o.Key = .error e) ∧
        b' = b) ∨
      ∃ contents, sess.ListObjectsV2 (some b.Region) b.Name = .ok contents ∧
        (∀ o ∈ contents, ∃ meta, sess.HeadObject (some b.Region) b.Name o.Key = .ok meta) ∧
        b'.Objects.map (fun o => some o.ObjectName) = contents.map (fun o => o.Key) ∧
        b'.Objects.map (fun o => some o.Size) = contents.map (fun o => o.Size) ∧
        b'.NumberOfObjects = contents.length ∧
        b'.NumberOfObjects = b'.Objects.length ∧
        (fitsInt64 (sumSizes b'.Objects) → b'.TotalSize = sumSizes b'.Objects)) ∧
    (SnapshotInvariant b → SnapshotInvariant b') := by
  refine ⟨?_, fun hb => ObjectList_preserves_invariant hb h⟩
  rcases ObjectList_outcome h with hfail | ⟨contents, hl, hheads, hsz, hnm, hcount, htot⟩
  · exact Or.inl hfail
  · right
    refine ⟨contents, hl, hheads, hnm, hsz, hcount, ?_, ?_⟩
    · have hlen := congrArg List.length hsz
      simp only [List.length_map] at hlen
      rw [hcount, hlen]
    · intro hfit
      rw [htot]
      exact wrap64_of_fits hfit

/-- Witness of C4, amended: bucket b1 with sizes 100, 150 and 50 gets count 3
and total 300; bucket b2 with no objects gets 0 and 0. -/
theorem ObjectList_snapshot_invariant_witness :
    ObjectList exSession
      { CreationDate := 10, Name := "b1", Region := "eu-west-1", BucketTags := some [] } =
      .ok exBucket1 ∧
    exBucket1.NumberOfObjects = 3 ∧ exBucket1.TotalSize = 300 ∧
    ObjectList exSession exBucket2 = .ok exBucket2 ∧
    exBucket2.NumberOfObjects = 0 ∧ exBucket2.TotalSize = 0 ∧
    SnapshotInvariant exBucket1 :=
  ⟨rfl, rfl, rfl, rfl, rfl, rfl,
    (ObjectList_snapshot_invariant exSession
      { CreationDate := 10, Name := "b1", Region := "eu-west-1", BucketTags := some [] }
      exBucket1 rfl).2 ⟨rfl, fun _ => rfl⟩⟩

/-! ## Properties of the bucket collector -/

/-- C5: for every successful bucket listing of N buckets and every order in
which the N per-bucket tasks run and complete, `BucketList` returns, without
error, a sequence of exactly N bucket snapshots whose i-th entry has the
`Name` and the `CreationDate` of the i-th listed bucket; a task writes only
its own slot. -/
theorem BucketList_preserves_order (sess : Session) (buckets : List S3Bucket)
    (order : List Nat)
    (hlist : sess.ListBuckets sess.Config_Region = .ok buckets)
    (hperm : order.Perm (List.range buckets.length))
    (hdone : TasksComplete sess buckets) :
    (∃ r, BucketList sess order = .ok r ∧ r.err = none ∧
      r.bucketArray.length = buckets.length ∧
      ∀ (i : Nat) (b : S3Bucket), buckets[i]? = some b →
        ∃ mb : MetaBucket, r.bucketArray[i]? = some (some mb) ∧ some mb.Name = b.Name ∧
          some mb.CreationDate = b.CreationDate) ∧
    (∀ (i : Nat) (b : S3Bucket) (arr arr' : List (Option MetaBucket)) (e : Option Err),
      GetBucketMeta i b sess arr = .ok (arr', e) →
      arr'.length = arr.length ∧ ∀ j, j ≠ i → arr'[j]? = arr[j]?) := by
  have hok := bucketOf_of_TasksComplete hdone
  constructor
  · refine ⟨_, BucketList_of_ok hlist hperm hok, rfl, by simp, ?_⟩
    intro i b hb
    obtain ⟨p, hp⟩ := hok b (List.getElem?_mem hb)
    refine ⟨p.1, ?_, bucketOf_name hp⟩
    simp [hb, slotOf_of_ok hp]
  · intro i b arr arr' e h
    rw [GetBucketMeta_eq] at h
    by_cases hi : arr.length ≤ i
    · simp [hi] at h
    · rw [if_neg hi] at h
      cases hq : bucketOf b sess with
      | error f => simp [hq] at h
      | ok q =>
        simp only [hq, Except.ok.injEq, Prod.mk.injEq] at h
        obtain ⟨h1, _⟩ := h
        subst h1
        refine ⟨by simp, ?_⟩
        intro j hj
        have hij : i ≠ j := fun e => hj e.symm
        simp [List.getElem?_set, hij]

/-- Witness of C5: the two buckets of the example backend, with the task of
b2 completing before the task of b1. -/
theorem BucketList_preserves_order_witness :
    BucketList exSession [1, 0] =
      .ok { bucketArray := [some exBucket1, some exBucket2], err := none, launched := 2 } ∧
    ∃ r, BucketList exSession [1, 0] = .ok r ∧ r.err = none ∧ r.bucketArray.length = 2 :=
  ⟨rfl,
    let h := (BucketList_preserves_order exSession
      [ { Name := some "b1", CreationDate := some 10 },
        { Name := some "b2", CreationDate := some 20 } ] [1, 0] rfl
      (List.Perm.swap 0 1 [])
      (exSession_complete exSession ⟨_, rfl⟩ ⟨_, rfl⟩)).1
    h.elim (fun r hr => ⟨r, hr.1, hr.2.1, hr.2.2.1⟩)⟩

/-! ## Properties of the synchronisation cycle -/

/-- C6: for every store state and every backend whose provider responses are
the same in both cycles, a second `SyncMetadata` (under any order of its
tasks) leaves the stored documents and the returned error as the first one
left them; when the first cycle succeeds, the document under the backend's
Id is the whole freshly built aggregate (Id, Name, Type and Region of the
configuration, with the buckets attached), whatever document was there. -/
theorem SyncMetadata_idempotent (ad : AwsAdapter) (order order' : List Nat) (db : Mongo)
    (r : SyncResult)
    (ho : IsSchedule ad.Session order) (ho' : IsSchedule ad.Session order')
    (hrun : SyncMetadata ad order db = .ok r) :
    (∃ r', SyncMetadata ad order' r.db = .ok r' ∧ r'.db.docs = r.db.docs ∧ r'.err = r.err) ∧
    (r.err = none →
      ∃ br, BucketList ad.Session order = .ok br ∧
        findDoc ad.Backend.Id r.db.docs =
          some ⟨none, { Id := ad.Backend.Id, BackendName := ad.Backend.Name,
                        Type_ := ad.Backend.Type_, Region := ad.Backend.Region,
                        Buckets := br.bucketArray }⟩) := by
  cases hlist : ad.Session.ListBuckets ad.Session.Config_Region with
  | error e =>
    rw [SyncMetadata_of_list_error order db hlist] at hrun
    injection hrun with hrun
    subst hrun
    refine ⟨⟨_, SyncMetadata_of_list_error order' db hlist, rfl, rfl⟩, ?_⟩
    intro h
    cases h
  | ok buckets =>
    have hok := SyncMetadata_inv hlist (ho buckets hlist) hrun
    rw [SyncMetadata_of_ok db hlist (ho buckets hlist) hok] at hrun
    injection hrun with hrun
    subst hrun
    have hs := SyncMetadata_store_result db
      (aggregateOf ad.Backend (buckets.map (fun b => slotOf ad.Session b)))
    obtain ⟨hs1, _, hs3, hs4, hs5⟩ := hs
    constructor
    · refine ⟨_, SyncMetadata_of_ok _ hlist (ho' buckets hlist) hok, ?_, ?_⟩
      · have ht := SyncMetadata_store_result
          (CreateMetadata db
            (aggregateOf ad.Backend (buckets.map (fun b => slotOf ad.Session b)))).1
          (aggregateOf ad.Backend (buckets.map (fun b => slotOf ad.Session b)))
        obtain ⟨_, _, _, ht4, ht5⟩ := ht
        cases hd : db.down with
        | none =>
          dsimp only
          rw [ht4 (hs3.trans hd), hs4 hd]
          exact replaceUpsert_idem_aggregate ad.Backend _ db.docs
        | some e =>
          dsimp only
          exact ht5 (by rw [hs3, hd]; simp)
      · dsimp only
        rw [(SyncMetadata_store_result _ _).1, hs3, hs1]
    · intro herr
      dsimp only at herr ⊢
      have hd : db.down = none := hs1.symm.trans herr
      refine ⟨_, BucketList_of_ok hlist (ho buckets hlist) hok, ?_⟩
      rw [hs4 hd]
      exact findDoc_upsert_aggregate ad.Backend _ db.docs

/-- Witness of C6: two cycles on the example backend, over a store that
already holds an older document under the backend's Id. -/
theorem SyncMetadata_idempotent_witness :
    ∃ r', SyncMetadata ⟨exBackend, exSession⟩ [1, 0]
        (CreateMetadata exMongoOld
          (aggregateOf exBackend [some exBucket1, some exBucket2])).1 = .ok r' ∧
      r'.db.docs = [⟨none, aggregateOf exBackend [some exBucket1, some exBucket2]⟩] ∧
      r'.err = none :=
  (SyncMetadata_idempotent ⟨exBackend, exSession⟩ [0, 1] [1, 0]
    exMongoOld
    { err := none,
      db := (CreateMetadata exMongoOld
          (aggregateOf exBackend [some exBucket1, some exBucket2])).1,
      launched := 2 }
    (fun _ h => by cases h; exact List.Perm.refl _)
    (fun _ h => by cases h; exact List.Perm.swap 0 1 [])
    rfl).1

/-- C7, as stated, fails: with the object listing rejected, and likewise with
the head request of one object rejected, `SyncMetadata` returns no error
and persists the aggregate, bucket b1 recorded with no objects. -/
theorem SyncMetadata_swallows_enumeration_failure :
    SyncMetadata ⟨exBackend, exSessionNoListing⟩ [0, 1] exMongoEmpty =
      .ok { err := none,
            db := { docs := [⟨none, aggregateOf exBackend
                      [some { exBucket1 with NumberOfObjects := 0, TotalSize := 0, Objects := [] },
                       some exBucket2]⟩],
                    down := none, ops := [StoreOp.replaceOne "backend-1"] },
            launched := 2 } ∧
    SyncMetadata ⟨exBackend, exSessionNoHead⟩ [0, 1] exMongoEmpty =
      .ok { err := none,
            db := { docs := [⟨none, aggregateOf exBackend
                      [some { exBucket1 with NumberOfObjects := 0, TotalSize := 0, Objects := [] },
                       some exBucket2]⟩],
                    down := none, ops := [StoreOp.replaceOne "backend-1"] },
            launched := 2 } :=
  ⟨rfl, rfl⟩

/-- C7, amended: object-enumeration failures do not reach the caller.  When
the object listing or a head request fails, `ObjectList` returns with the
bucket as it was; and for every backend whose bucket listing succeeds and
whose tasks complete, `SyncMetadata` sends the aggregate to the store and
returns exactly the error of that write, so the aggregate is persisted
whenever the store accepts it. -/
theorem SyncMetadata_reports_only_store_errors (ad : AwsAdapter) (buckets : List S3Bucket)
    (order : List Nat) (db : Mongo)
    (hlist : ad.Session.ListBuckets ad.Session.Config_Region = .ok buckets)
    (hperm : order.Perm (List.range buckets.length))
    (hdone : TasksComplete ad.Session buckets) :
    (∀ b b' : MetaBucket, ObjectList ad.Session b = .ok b' →
      ((∃ e, ad.Session.ListObjectsV2 (some b.Region) b.Name = .error e) ∨
        ∃ contents, ad.Session.ListObjectsV2 (some b.Region) b.Name = .ok contents ∧
          ∃ o ∈ contents, ∃ e, ad.Session.HeadObject (some b.Region) b.Name o.Key = .error e) →
      b' = b) ∧
    ∃ r br, SyncMetadata ad order db = .ok r ∧ BucketList ad.Session order = .ok br ∧
      r.err = db.down ∧
      r.db.ops = db.ops ++ [StoreOp.replaceOne ad.Backend.Id] ∧
      (db.down = none →
        findDoc ad.Backend.Id r.db.docs =
          some ⟨none, { Id := ad.Backend.Id, BackendName := ad.Backend.Name,
                        Type_ := ad.Backend.Type_, Region := ad.Backend.Region,
                        Buckets := br.bucketArray }⟩) := by
  have hok := bucketOf_of_TasksComplete hdone
  refine ⟨fun b b' h hfail => ObjectList_unchanged_of_failure h hfail, ?_⟩
  obtain ⟨hs1, hs2, _, hs4, _⟩ := SyncMetadata_store_result db
    (aggregateOf ad.Backend (buckets.map (fun b => slotOf ad.Session b)))
  refine ⟨_, _, SyncMetadata_of_ok db hlist hperm hok, BucketList_of_ok hlist hperm hok,
    hs1, hs2, ?_⟩
  intro hd
  dsimp only
  rw [hs4 hd]
  exact findDoc_upsert_aggregate ad.Backend _ db.docs

/-- Witness of C7, amended: the example backend with the head request of
object k2 rejected. -/
theorem SyncMetadata_reports_only_store_errors_witness :
    ∃ r br, SyncMetadata ⟨exBackend, exSessionNoHead⟩ [0, 1] exMongo = .ok r ∧
      BucketList exSessionNoHead [0, 1] = .ok br ∧ r.err = none ∧
      r.db.ops = [StoreOp.replaceOne "backend-1"] :=
  let h := (SyncMetadata_reports_only_store_errors ⟨exBackend, exSessionNoHead⟩
    [ { Name := some "b1", CreationDate := some 10 },
      { Name := some "b2", CreationDate := some 20 } ] [0, 1] exMongo rfl
    (List.Perm.refl _)
    (exSession_complete exSessionNoHead ⟨_, rfl⟩ ⟨_, rfl⟩)).2
  h.elim (fun r hr => hr.elim (fun br hb => ⟨r, br, hb.1, hb.2.1, hb.2.2.1, hb.2.2.2.1⟩))

/-- C8: for every backend and every store state, if the provider's
`ListBuckets` call fails then `SyncMetadata` returns that error, launches no
per-bucket task and leaves the store exactly as it was. -/
theorem SyncMetadata_listing_failure_atomic (ad : AwsAdapter) (order : List Nat) (db : Mongo)
    (e : Err)
    (hlist : ad.Session.ListBuckets ad.Session.Config_Region = .error e) :
    SyncMetadata ad order db = .ok { err := some e, db := db, launched := 0 } :=
  SyncMetadata_of_list_error order db hlist

/-- Witness of C8: the example backend with its bucket listing rejected, over
a store that holds documents. -/
theorem SyncMetadata_listing_failure_atomic_witness :
    SyncMetadata ⟨exBackend, exSessionNoBuckets⟩ [0, 1] exMongo =
      .ok { err := some "InvalidAccessKeyId", db := exMongo, launched := 0 } :=
  SyncMetadata_listing_failure_atomic ⟨exBackend, exSessionNoBuckets⟩ [0, 1] exMongo
    "InvalidAccessKeyId" rfl

/-- C9, as stated, fails: bucket b1 meets every premise (its location lookup
succeeds, its tag fetch answers "NoSuchTagSet", the store is reachable), yet
with bucket b2 in the default region `SyncMetadata` ends with a nil
dereference, in either order of the two tasks, and stores nothing. -/
theorem SyncMetadata_faults_beside_missing_tag_set :
    exSessionMixedRegions.ListBuckets exSessionMixedRegions.Config_Region =
      .ok [ { Name := some "b1", CreationDate := some 10 },
            { Name := some "b2", CreationDate := some 20 } ] ∧
    exSessionMixedRegions.GetBucketLocation exSessionMixedRegions.Config_Region (some "b1") =
      .ok (some "eu-west-1") ∧
    exSessionMixedRegions.GetBucketTagging (some "eu-west-1") (some "b1") =
      .error "NoSuchTagSet: The TagSet does not exist" ∧
    stringsContains "NoSuchTagSet: The TagSet does not exist" "NoSuchTagSet" = true ∧
    exMongoEmpty.down = none ∧
    SyncMetadata ⟨exBackend, exSessionMixedRegions⟩ [0, 1] exMongoEmpty =
      .error Fault.nilDereference ∧
    SyncMetadata ⟨exBackend, exSessionMixedRegions⟩ [1, 0] exMongoEmpty =
      .error Fault.nilDereference :=
  ⟨rfl, rfl, rfl, rfl, rfl, rfl, rfl⟩

/-- C9, amended: for every backend whose bucket listing succeeds and whose
per-bucket tasks all complete (none ends in a runtime fault), if for the
i-th bucket the location lookup succeeds and the tag fetch answers with a
"NoSuchTagSet" error, and the store write succeeds, then `SyncMetadata`
returns without error, and in the aggregate stored under the backend's Id
the i-th bucket has the empty tag mapping and is what `ObjectList` made of
the bucket carrying that empty mapping. -/
theorem SyncMetadata_tolerates_missing_tag_set (ad : AwsAdapter) (buckets : List S3Bucket)
    (order : List Nat) (db : Mongo) (i : Nat) (b : S3Bucket) (loc : Option String) (e : Err)
    (hlist : ad.Session.ListBuckets ad.Session.Config_Region = .ok buckets)
    (hperm : order.Perm (List.range buckets.length))
    (hdone : TasksComplete ad.Session buckets)
    (hb : buckets[i]? = some b)
    (hloc : ad.Session.GetBucketLocation ad.Session.Config_Region b.Name = .ok loc)
    (htag : ∀ region, loc = some region →
      ad.Session.GetBucketTagging (some region) b.Name = .error e)
    (hmsg : stringsContains e "NoSuchTagSet" = true)
    (hdb : db.down = none) :
    ∃ (r : SyncResult) (doc : Document) (mb : MetaBucket) (region : String),
      SyncMetadata ad order db = .ok r ∧ r.err = none ∧
      findDoc ad.Backend.Id r.db.docs = some doc ∧
      doc.body.Buckets[i]? = some (some mb) ∧
      mb.BucketTags = some [] ∧
      loc = some region ∧
      ∃ n d, b = ⟨some n, some d⟩ ∧
        ObjectList ad.Session
          { CreationDate := d, Name := n, Region := region, BucketTags := some [] } = .ok mb := by
  have hok := bucketOf_of_TasksComplete hdone
  obtain ⟨p, hp⟩ := hok b (List.getElem?_mem hb)
  obtain ⟨hs1, _, _, hs4, _⟩ := SyncMetadata_store_result db
    (aggregateOf ad.Backend (buckets.map (fun b => slotOf ad.Session b)))
  obtain ⟨name, date⟩ := b
  cases date with
  | none => simp [bucketOf, deref, bind, Except.bind] at hp
  | some d =>
  cases name with
  | none => simp [bucketOf, deref, bind, Except.bind] at hp
  | some n =>
  cases loc with
  | none => simp [bucketOf, deref, bind, Except.bind, hloc] at hp
  | some region =>
  have htag' := htag region rfl
  cases hcfg : ad.Session.Config_Region with
  | none =>
    rw [hcfg] at hloc
    simp [bucketOf, deref, bind, Except.bind, hloc, hcfg] at hp
  | some r0 =>
    rw [bucketOf_located hcfg hloc] at hp
    simp only [htag', hmsg, if_true] at hp
    cases hol : ObjectList ad.Session
        { CreationDate := d, Name := n, Region := region, BucketTags := some [] } with
    | error f => simp [hol] at hp
    | ok mb =>
      simp only [hol, Except.ok.injEq] at hp
      have hslot : slotOf ad.Session ⟨some n, some d⟩ = some mb := by
        simp only [slotOf, bucketOf_located hcfg hloc, htag', hmsg, if_true, hol]
      refine ⟨_, ⟨none, aggregateOf ad.Backend (buckets.map (fun b => slotOf ad.Session b))⟩,
        mb, region, SyncMetadata_of_ok db hlist hperm hok, hs1.trans hdb, ?_, ?_, ?_, rfl,
        n, d, rfl, hol⟩
      · dsimp only
        rw [hs4 hdb]
        exact findDoc_upsert_aggregate ad.Backend _ db.docs
      · simp [aggregateOf, hb, hslot]
      · exact (ObjectList_frame hol).2.2.2

/-- Witness of C9, amended: bucket b1 of the example backend has no tag set. -/
theorem SyncMetadata_tolerates_missing_tag_set_witness :
    ∃ (r : SyncResult) (doc : Document) (mb : MetaBucket),
      SyncMetadata ⟨exBackend, exSession⟩ [1, 0] exMongoEmpty = .ok r ∧ r.err = none ∧
      findDoc "backend-1" r.db.docs = some doc ∧
      doc.body.Buckets[0]? = some (some mb) ∧ mb.BucketTags = some [] :=
  let h := SyncMetadata_tolerates_missing_tag_set ⟨exBackend, exSession⟩
    [ { Name := some "b1", CreationDate := some 10 },
      { Name := some "b2", CreationDate := some 20 } ] [1, 0] exMongoEmpty 0
    { Name := some "b1", CreationDate := some 10 } (some "eu-west-1")
    "NoSuchTagSet: The TagSet does not exist" rfl (List.Perm.swap 0 1 [])
    (exSession_complete exSession ⟨_, rfl⟩ ⟨_, rfl⟩) rfl rfl (fun _ _ => rfl) rfl rfl
  h.elim (fun r hr => hr.elim (fun doc hd => hd.elim (fun mb hm => hm.elim (fun _ hg =>
    ⟨r, doc, mb, hg.1, hg.2.1, hg.2.2.1, hg.2.2.2.1, hg.2.2.2.2.1⟩))))

/-- C10 fails on the code: for a bucket of the default region the location
lookup succeeds with no location constraint, and `GetBucketMeta` ends with a
nil dereference before the tag fetch; so do `BucketList` and `SyncMetadata`. -/
theorem GetBucketMeta_faults_without_location_constraint :
    exSessionDefaultRegion.GetBucketLocation exSessionDefaultRegion.Config_Region (some "b1") =
      .ok none ∧
    GetBucketMeta 0 { Name := some "b1", CreationDate := some 10 } exSessionDefaultRegion [none] =
      .error Fault.nilDereference ∧
    BucketList exSessionDefaultRegion [0] = .error Fault.nilDereference ∧
    SyncMetadata ⟨exBackend, exSessionDefaultRegion⟩ [0] exMongo = .error Fault.nilDereference :=
  ⟨rfl, rfl, rfl, rfl⟩

end Strato
